import Mathlib

/-!
Verification development for the expression engine of `obj_tables`
(file `obj_tables/math/expression.py`).

The development shallowly embeds, in Lean:

* the abstract syntax trees that `LinearParsedExpressionValidator` builds with
  Python's `ast` module, the `ast.NodeTransformer` rewrite passes
  (`RemoveUnaryOps`, `MultiplyNums`, `DistributeMult`, `DistributeSub`),
  the node scans (`_validate_node_types`, `_expr_has_a_constant`,
  `_max_num_variables_in_a_product`, `_expr_has_constant_right_of_vars`),
  the breadth-first `ast.walk` traversal and `_get_coeffs_for_vars`;
* `ParsedExpression.tokenize` and its helpers `_match_tokens`,
  `_get_related_obj_id`, `_get_disambiguated_id`, `_get_func_call_id`,
  the ambiguity post-scan, and the reset of derived state;
* the `eval` error wrapping and `recreate_whitespace`.

Numeric literals are modelled with `ℚ`: the expressions admitted by the engine
carry decimal int/float literals, and none of the verified properties depends
on floating-point rounding.  Python's complex literals (which
`_validate_nums` guards against) are outside this model, so the embedded
`validateNums` is constantly true.
-/

namespace ObjTables

/-! ### Abstract syntax trees (`ast` nodes reachable from tokenized expressions)

Binary operators.  `add`, `sub`, `mult` are the operators accepted by
`LinearParsedExpressionValidator.VALID_NOTE_TYPES`; `div` is `ast.Div`,
`pow` is `ast.Pow`, and `otherOp` stands for any further binary operator
(`Mod`, `FloorDiv`, ...), all of which the validator rejects. -/
inductive BOp where
  | add | sub | mult | div | pow | otherOp
deriving DecidableEq, Repr

/-- Unary operators: `ast.UAdd`, `ast.USub`, and (`otherUOp`) any other
unary operator such as `ast.Not`, which the validator rejects. -/
inductive UOp where
  | uadd | usub | otherUOp
deriving DecidableEq, Repr

/-- Python `ast` expression nodes reachable from an `obj_tables` expression.
`num` is `ast.Num`/`ast.Constant` with a numeric value; `name` is `ast.Name`
(the `ctx` child is omitted: `ast.Load` is always in `VALID_NOTE_TYPES` and
carries no information); `call` is `ast.Call` (modelled with one
representative argument: call nodes are rejected by `_validate_node_types`
before any transformation or scan looks inside them, so the argument list's
arity is irrelevant to every verified property); `cmp` is `ast.Compare`
(similarly rejected, modelled with a representative pair of operands). -/
inductive PyAST where
  | num (n : ℚ)
  | name (id : String)
  | unary (op : UOp) (operand : PyAST)
  | bin (left : PyAST) (op : BOp) (right : PyAST)
  | call (fn : String) (arg : PyAST)
  | cmp (left : PyAST) (right : PyAST)
deriving DecidableEq, Repr

namespace PyAST

/-- Number of `ast` nodes (used to bound the breadth-first walk). -/
def nodeCount : PyAST → Nat
  | .num _ => 1
  | .name _ => 1
  | .unary _ x => 1 + x.nodeCount
  | .bin l _ r => 1 + l.nodeCount + r.nodeCount
  | .call _ a => 1 + a.nodeCount
  | .cmp l r => 1 + l.nodeCount + r.nodeCount

/-- The child nodes of a node, in the field order used by
`ast.iter_child_nodes` (operator and context children are omitted; they are
leaves of kinds that never affect any scan modelled here). -/
def children : PyAST → List PyAST
  | .num _ => []
  | .name _ => []
  | .unary _ x => [x]
  | .bin l _ r => [l, r]
  | .call _ a => [a]
  | .cmp l r => [l, r]

/-- Does a node, or any node below it, satisfy `p`?  Order-insensitive
counterpart of `for node in ast.walk(tree): if p(node)` scans. -/
def anyNode (p : PyAST → Bool) : PyAST → Bool
  | .num n => p (.num n)
  | .name s => p (.name s)
  | .unary op x => p (.unary op x) || anyNode p x
  | .bin l op r => p (.bin l op r) || anyNode p l || anyNode p r
  | .call f a => p (.call f a) || anyNode p a
  | .cmp l r => p (.cmp l r) || anyNode p l || anyNode p r

end PyAST

/-! ### `_validate_node_types` -/

/-- Whether a single node's kind is allowed in a linear expression
(`LinearParsedExpressionValidator.VALID_NOTE_TYPES`).  In the source the
operator of a `UnaryOp`/`BinOp` is itself a walked child node
(`ast.UAdd`, `ast.Mult`, ...), so a node passes exactly when its kind and
its operator kind are both in the valid set. -/
def nodeTypeOK : PyAST → Bool
  | .num _ => true
  | .name _ => true
  | .unary op _ => op = UOp.uadd || op = UOp.usub
  | .bin _ op _ => op = BOp.add || op = BOp.sub || op = BOp.mult
  | .call _ _ => false
  | .cmp _ _ => false

/-- `_validate_node_types`: every walked node must be of a valid type. -/
def validateNodeTypes (t : PyAST) : Bool :=
  !(t.anyNode fun n => !(nodeTypeOK n))

/-- `_validate_nums`: all numeric literals must coerce to `float`.  With
numbers modelled in `ℚ` (no complex literals), the coercion always
succeeds. -/
def validateNums (_ : PyAST) : Bool := true

/-! ### The rewrite passes

Each `ast.NodeTransformer` visits bottom-up: `generic_visit` first rewrites
the children, then the visitor inspects the node with its new children.
Each pass is modelled as `bottomUp nodeRewrite`, where `nodeRewrite` is the
body of the pass's `visit_BinOp`/`visit_UnaryOp` after `generic_visit`
(and the identity on node kinds the pass has no visitor for). -/

/-- Apply `f` to every node, children first — the traversal discipline of
`ast.NodeTransformer.visit` for a transformer whose visitors call
`generic_visit` before rewriting the node. -/
def bottomUp (f : PyAST → PyAST) : PyAST → PyAST
  | .num n => f (.num n)
  | .name s => f (.name s)
  | .unary op x => f (.unary op (bottomUp f x))
  | .bin l op r => f (.bin (bottomUp f l) op (bottomUp f r))
  | .call g a => f (.call g (bottomUp f a))
  | .cmp l r => f (.cmp (bottomUp f l) (bottomUp f r))

/-- The node rewrite of `RemoveUnaryOps.visit_UnaryOp`: `+x → x`,
`-x → (-1) * x`.  For any other unary operator the source returns `None`
(deleting the child); such operators are rejected by
`_validate_node_types` before this pass can run, and the embedding leaves
them in place. -/
def removeUnaryNode : PyAST → PyAST
  | .unary .uadd x => x
  | .unary .usub x => .bin (.num (-1)) .mult x
  | t => t

/-- `RemoveUnaryOps` applied by `_remove_unary_operators` (one traversal). -/
def removeUnaryOps (t : PyAST) : PyAST := bottomUp removeUnaryNode t

/-- The node rewrite of `MultiplyNums.visit_BinOp`: fold `Num * Num` to a
`Num`, and fold the two constants in `Num * (Num * x)`. -/
def mulNumsNode : PyAST → PyAST
  | .bin (.num a) .mult (.num b) => .num (a * b)
  | .bin (.num a) .mult (.bin (.num b) .mult r2) => .bin (.num (a * b)) .mult r2
  | t => t

/-- `MultiplyNums` applied by `_multiply_numbers` (one traversal). -/
def multiplyNums (t : PyAST) : PyAST := bottomUp mulNumsNode t

/-- Is a node one of `ast.Num`, `ast.Name`, `ast.UnaryOp`, `ast.BinOp`?
(`DistributeMult` requires this of the factor it distributes over.) -/
def isNumNameUnaryOrBin : PyAST → Bool
  | .num _ => true
  | .name _ => true
  | .unary _ _ => true
  | .bin _ _ _ => true
  | _ => false

/-- The node rewrite of `DistributeMult.visit_BinOp`:
`(a ± b) * c → a*c ± b*c` (checked first), then `a * (b ± c) → a*b ± a*c`. -/
def distMultNode : PyAST → PyAST
  | .bin (.bin ll lop lr) .mult (.bin rl rop rr) =>
    if lop = BOp.add || lop = BOp.sub then
      .bin (.bin ll .mult (.bin rl rop rr)) lop (.bin lr .mult (.bin rl rop rr))
    else if rop = BOp.add || rop = BOp.sub then
      .bin (.bin (.bin ll lop lr) .mult rl) rop (.bin (.bin ll lop lr) .mult rr)
    else .bin (.bin ll lop lr) .mult (.bin rl rop rr)
  | .bin (.bin ll lop lr) .mult r =>
    if (lop = BOp.add || lop = BOp.sub) && isNumNameUnaryOrBin r then
      .bin (.bin ll .mult r) lop (.bin lr .mult r)
    else .bin (.bin ll lop lr) .mult r
  | .bin l .mult (.bin rl rop rr) =>
    if (rop = BOp.add || rop = BOp.sub) && isNumNameUnaryOrBin l then
      .bin (.bin l .mult rl) rop (.bin l .mult rr)
    else .bin l .mult (.bin rl rop rr)
  | t => t

/-- One traversal of `DistributeMult`. -/
def distributeMultPass (t : PyAST) : PyAST := bottomUp distMultNode t

/-- Repeat a pass until the tree stops changing — the
`while True: copy; visit; if ast_eq(copy, tree): break` loops of the source
(`astor.dump_tree` comparison is structural equality here).  The iteration
carries explicit fuel; each theorem below either holds for every fuel value
or reaches the fixpoint within the supplied fuel. -/
def iteratePass (f : PyAST → PyAST) : Nat → PyAST → PyAST
  | 0, t => t
  | fuel + 1, t =>
    let t' := f t
    if t' = t then t else iteratePass f fuel t'

/-- `_dist_mult`: repeat `DistributeMult` to a fixpoint. -/
def distMult (fuel : Nat) (t : PyAST) : PyAST := iteratePass distributeMultPass fuel t

/-- The node rewrite of `DistributeSub.visit_BinOp`: rewrite `a - b` into
`a + (-1)*b`, distributing the `-1` when the subtrahend is a sum,
difference, or product. -/
def removeSubNode : PyAST → PyAST
  | .bin l .sub (.name v) => .bin l .add (.bin (.num (-1)) .mult (.name v))
  | .bin l .sub (.num n) => .bin l .add (.bin (.num (-1)) .mult (.num n))
  | .bin l .sub (.bin rl rop rr) =>
    if rop = BOp.add || rop = BOp.sub then
      .bin l .add (.bin (.bin (.num (-1)) .mult rl) rop (.bin (.num (-1)) .mult rr))
    else if rop = BOp.mult then
      .bin l .add (.bin (.bin (.num (-1)) .mult rl) .mult rr)
    else .bin l .sub (.bin rl rop rr)
  | t => t

/-- `DistributeSub` applied by `_remove_subtraction` (one traversal). -/
def removeSubtraction (t : PyAST) : PyAST := bottomUp removeSubNode t

/-- The normalization sequence of `LinearParsedExpressionValidator._validate`
(lines 1444–1449): remove unary operators, multiply numbers, distribute
multiplication (to a fixpoint), multiply numbers, remove subtraction,
multiply numbers. -/
def codeNormalize (fuel : Nat) (t : PyAST) : PyAST :=
  multiplyNums (removeSubtraction (multiplyNums (distMult fuel (multiplyNums (removeUnaryOps t)))))

/-- The normalization sequence as described with every pass — not only the
multiplication-distribution pass — iterated to a fixpoint detected by
structural equality of successive trees. -/
def specNormalize (f1 f2 fd f4 f5 f6 : Nat) (t : PyAST) : PyAST :=
  iteratePass (bottomUp mulNumsNode) f6
    (iteratePass (bottomUp removeSubNode) f5
      (iteratePass (bottomUp mulNumsNode) f4
        (iteratePass (bottomUp distMultNode) fd
          (iteratePass (bottomUp mulNumsNode) f2
            (iteratePass (bottomUp removeUnaryNode) f1 t)))))

/-! ### The post-normalization scans -/

/-- `_expr_has_a_constant`: the whole tree is a single `Num`
(in the source: `len(list(ast.walk(tree.body))) == 1` and the node is a
`Num` — every non-`Num` node has at least one walked child, e.g. a `Name`
has its `ctx`), or some `Add`/`Sub` node has a `Num` operand. -/
def exprHasAConstant (t : PyAST) : Bool :=
  (match t with | .num _ => true | _ => false) ||
  t.anyNode fun n =>
    match n with
    | .bin l op r =>
      (op = BOp.add || op = BOp.sub) &&
        ((match l with | .num _ => true | _ => false) ||
         (match r with | .num _ => true | _ => false))
    | _ => false

/-- `_num_of_variables_in_a_product`: count variables in the maximal
product rooted at a `Mult` node (`Name` counts 1, a `BinOp` child is
recursed into, anything else counts 0; a node whose operator is not `Mult`
contributes 0). -/
def numVarsInProduct : PyAST → Nat
  | .bin l .mult r =>
    (match l with
     | .name _ => 1
     | .bin a op b => numVarsInProduct (.bin a op b)
     | _ => 0) +
    (match r with
     | .name _ => 1
     | .bin a op b => numVarsInProduct (.bin a op b)
     | _ => 0)
  | _ => 0

/-- `_expr_has_products_of_variables`: some `BinOp` node has more than one
variable in its product (`1 < _max_num_variables_in_a_product()`). -/
def exprHasProductsOfVariables (t : PyAST) : Bool :=
  t.anyNode fun n =>
    match n with
    | .bin l op r => decide (1 < numVarsInProduct (.bin l op r))
    | _ => false

/-- `_product_has_name`: a `Name`, or a `Mult` product containing one. -/
def productHasName : PyAST → Bool
  | .name _ => true
  | .bin l .mult r => productHasName l || productHasName r
  | _ => false

/-- `_product_has_num`: a `Num`, or a `Mult` product containing one. -/
def productHasNum : PyAST → Bool
  | .num _ => true
  | .bin l .mult r => productHasNum l || productHasNum r
  | _ => false

/-- `_expr_has_constant_right_of_vars`: some `Mult` node has a variable in
its left product and a number in its right product. -/
def exprHasConstantRightOfVars (t : PyAST) : Bool :=
  t.anyNode fun n =>
    match n with
    | .bin l .mult r => productHasName l && productHasNum r
    | _ => false

/-- Result of `LinearParsedExpressionValidator._validate` together with the
tree it leaves behind (the transformer passes mutate `self.tree` in the
source; `_set_lin_coeffs` then reads the mutated tree). -/
structure LinValidationResult where
  is_linear : Bool
  reason : Option String
  tree : PyAST
deriving DecidableEq, Repr

/-- `LinearParsedExpressionValidator._validate`, starting from a parsed
tree (`_validate_syntax` is the parse producing the tree).  The reasons are
the source's messages with the interpolated expression text elided. -/
def lpevValidate (fuel : Nat) (t : PyAST) : LinValidationResult :=
  if !validateNodeTypes t then
    ⟨false, some "contains invalid terms", t⟩
  else if !validateNums t then
    ⟨false, some "numbers that cannot be coerced into floats", t⟩
  else
    let t' := codeNormalize fuel t
    if exprHasAConstant t' then
      ⟨false, some "contains constant term(s)", t'⟩
    else if exprHasProductsOfVariables t' then
      ⟨false, some "contains product(s) of variables", t'⟩
    else if exprHasConstantRightOfVars t' then
      ⟨false, some "contains a constant right of a var in a product", t'⟩
    else
      ⟨true, none, t'⟩

/-! ### `ast.walk` (breadth first) and `_get_coeffs_for_vars` -/

/-- Breadth-first traversal with explicit fuel: `ast.walk` keeps a FIFO
queue, yields its head and enqueues the head's children.  Each dequeue
consumes one unit of fuel; `nodeCount` of the root is enough fuel to walk a
whole tree. -/
def walkAux : Nat → List PyAST → List PyAST
  | 0, _ => []
  | _, [] => []
  | fuel + 1, n :: q => n :: walkAux fuel (q ++ n.children)

/-- `ast.walk(t)`: every node of `t` in breadth-first order. -/
def walk (t : PyAST) : List PyAST :=
  walkAux t.nodeCount [t]

/-- The accumulation loop of `_get_coeffs_for_vars` over the walked nodes:
a `Num` sets the pending coefficient, a `Name` emits
`(float(coeff), node.id)` and resets the coefficient to the default 1. -/
def coeffScan : List PyAST → ℚ → List (ℚ × String)
  | [], _ => []
  | .num n :: rest, _ => coeffScan rest n
  | .name v :: rest, c => (c, v) :: coeffScan rest 1
  | _ :: rest, c => coeffScan rest c

/-- `_get_coeffs_for_vars` on a (normalized) tree.  The opaque-identifier
remapping step is the identity here: names in the embedded trees are the
model ids themselves (the source's `opaque_ids` map is a bijection applied
before parsing and inverted here). -/
def getCoeffsForVars (t : PyAST) : List (ℚ × String) :=
  coeffScan (walk t) 1

/-- The coefficient `_set_lin_coeffs` records for the instance with id
`id`: starting from the default `0.0`, add each pair's coefficient
(`lin_coeffs[cls][model] += coeff`). -/
def linCoeffOf (t : PyAST) (id : String) : ℚ :=
  ((getCoeffsForVars t).filter (fun p => p.2 = id)).foldl (fun a p => a + p.1) 0

/-- Structural-recursion form of the same accumulation: the contribution of
`id` in a pair list. -/
def pairSum (id : String) : List (ℚ × String) → ℚ
  | [] => 0
  | p :: rest => (if p.2 = id then p.1 else 0) + pairSum id rest

/-! ### Structural classes used to reason about the passes -/

/-- Does the tree contain a node kind that `_validate_node_types` rejects
as stated in the specification: a function call, a comparison, a division,
or an exponentiation? -/
def hasDisallowedNode (t : PyAST) : Bool :=
  t.anyNode fun n =>
    match n with
    | .call _ _ => true
    | .cmp _ _ => true
    | .bin _ .div _ => true
    | .bin _ .pow _ => true
    | _ => false

/-- No `UnaryOp` node anywhere. -/
def unaryFree : PyAST → Bool
  | .num _ => true
  | .name _ => true
  | .unary _ _ => false
  | .bin l _ r => unaryFree l && unaryFree r
  | .call _ a => unaryFree a
  | .cmp l r => unaryFree l && unaryFree r

/-- Trees made of numbers, names, and `Add`/`Sub`/`Mult` binary nodes only:
the shape every node-type-validated tree has after `RemoveUnaryOps`. -/
def classB : PyAST → Bool
  | .num _ => true
  | .name _ => true
  | .bin l op r => (op = BOp.add || op = BOp.sub || op = BOp.mult) && classB l && classB r
  | _ => false

/-- No `Sub` node anywhere. -/
def subFree : PyAST → Bool
  | .num _ => true
  | .name _ => true
  | .unary _ x => subFree x
  | .bin l op r => !(op = BOp.sub) && subFree l && subFree r
  | .call _ a => subFree a
  | .cmp l r => subFree l && subFree r

/-- Is the node itself a redex of `MultiplyNums`? -/
def isMulRedex : PyAST → Bool
  | .bin (.num _) .mult (.num _) => true
  | .bin (.num _) .mult (.bin (.num _) .mult _) => true
  | _ => false

/-- No `MultiplyNums` redex anywhere. -/
def noMulRedex : PyAST → Bool
  | .num _ => true
  | .name _ => true
  | .unary _ x => noMulRedex x
  | .bin l op r => !(isMulRedex (.bin l op r)) && noMulRedex l && noMulRedex r
  | .call _ a => noMulRedex a
  | .cmp l r => noMulRedex l && noMulRedex r

/-! ### Linear combinations

The source-level grammar of claims about linear expressions: a left-
associated chain `t₁ ± t₂ ± … ± tₙ` where each term `tᵢ` is either a bare
identifier `v` or a product `c * v` of a numeric-literal coefficient and an
identifier.  By Python's grammar (`+`/`-` left-associative, binding looser
than `*`), the `ast` of such an expression is exactly `LinComb.toAST`. -/

/-- One term: an optional literal coefficient and an identifier. -/
structure LinTerm where
  coeff : Option ℚ
  id : String
deriving DecidableEq, Repr

/-- `c * v` or a bare `v`. -/
def LinTerm.toAST : LinTerm → PyAST
  | ⟨some c, v⟩ => .bin (.num c) .mult (.name v)
  | ⟨none, v⟩ => .name v

/-- The coefficient value carried by a term (default 1 for a bare
identifier), negated under a minus sign. -/
def LinTerm.signedVal (s : Bool) (t : LinTerm) : ℚ :=
  (if s then -1 else 1) * t.coeff.getD 1

/-- A non-empty left-associated signed chain of terms; `app rest s t`
appends `± t` (with `s = true` for `-`). -/
inductive LinComb where
  | single (t : LinTerm)
  | app (rest : LinComb) (s : Bool) (t : LinTerm)
deriving DecidableEq, Repr

/-- The `ast` of the chain (left-associated, as Python parses it). -/
def LinComb.toAST : LinComb → PyAST
  | .single t => t.toAST
  | .app rest s t => .bin rest.toAST (if s then .sub else .add) t.toAST

/-- The signed sum of the coefficients of all occurrences of `id`. -/
def LinComb.coeffSum (id : String) : LinComb → ℚ
  | .single t => if t.id = id then t.signedVal false else 0
  | .app rest s t => rest.coeffSum id + (if t.id = id then t.signedVal s else 0)

/-! ### Normal forms of linear combinations

`GTree` captures the trees `codeNormalize` produces from a `LinComb`:
an `Add` spine whose leaves are `c * v` products or bare names.  `Seg`
lists are the breadth-first queue states reachable when `ast.walk`
traverses such a tree: whole `GTree`s, or an adjacent
coefficient–name pair of children of a product node. -/

/-- Trees of the normal form: bare name, `Num * Name` product, `Add` node. -/
inductive GTree where
  | gname (v : String)
  | coeffTerm (c : ℚ) (v : String)
  | addNode (l r : GTree)
deriving DecidableEq, Repr

/-- The `PyAST` a `GTree` stands for. -/
def GTree.toAST : GTree → PyAST
  | .gname v => .name v
  | .coeffTerm c v => .bin (.num c) .mult (.name v)
  | .addNode l r => .bin l.toAST .add r.toAST

/-- Sum of the coefficients attached to occurrences of `id` (bare names
count 1). -/
def GTree.idSum (id : String) : GTree → ℚ
  | .gname v => if v = id then 1 else 0
  | .coeffTerm c v => if v = id then c else 0
  | .addNode l r => l.idSum id + r.idSum id

/-- The normal form of a term under a sign: `removeSubtraction` turns
`… - c*v` into `… + (-1*c)*v` (folded by `MultiplyNums` to `(-c)*v`) and
`… - v` into `… + (-1)*v`. -/
def LinTerm.normTerm (s : Bool) : LinTerm → GTree
  | ⟨some c, v⟩ => .coeffTerm (if s then -c else c) v
  | ⟨none, v⟩ => if s then .coeffTerm (-1) v else .gname v

/-- The normal form of a whole chain: an `Add` spine of normal terms. -/
def LinComb.normTree : LinComb → GTree
  | .single t => t.normTerm false
  | .app rest s t => .addNode rest.normTree (t.normTerm s)

/-- One segment of a breadth-first queue over normal-form trees. -/
inductive Seg where
  | tr (t : GTree)
  | pairBlock (c : ℚ) (v : String)
deriving DecidableEq, Repr

/-- The queue a segment list stands for. -/
def flatSegs : List Seg → List PyAST
  | [] => []
  | .tr t :: s => t.toAST :: flatSegs s
  | .pairBlock c v :: s => .num c :: .name v :: flatSegs s

/-- Sum of the id's coefficients over a segment list. -/
def segsSum (id : String) : List Seg → ℚ
  | [] => 0
  | .tr t :: s => t.idSum id + segsSum id s
  | .pairBlock c v :: s => (if v = id then c else 0) + segsSum id s

/-- Total node count of a segment list (a fuel bound for `walkAux`). -/
def segsNodes : List Seg → Nat
  | [] => 0
  | .tr t :: s => t.toAST.nodeCount + segsNodes s
  | .pairBlock _ _ :: s => 2 + segsNodes s

/-! ### `ParsedExpression`: tokens and the term-model registry

`ParsedExpression.__init__` runs CPython's tokenizer over the (whitespace-
stripped, digit-prefixed) expression text and stores the resulting token
list in `self._py_tokens`; the embedding takes that list as given input.
Expressions span a single line (an assumption the source itself makes in
`_get_trailing_whitespace`), so token positions are column numbers. -/

/-- The exact Python token kinds relevant to obj_tables expressions:
`ParsedExpression.LEGAL_TOKENS_NAMES`, plus representatives of illegal
kinds (`STRING`, and `otherTok` for all remaining kinds). -/
inductive TokTy where
  | tNAME | tNUMBER
  | tLSQB | tRSQB | tDOT | tCOMMA
  | tDOUBLESTAR | tMINUS | tPLUS | tSLASH | tSTAR
  | tLPAR | tRPAR
  | tEQEQUAL | tGREATER | tGREATEREQUAL | tLESS | tLESSEQUAL | tNOTEQUAL
  | tSTRING | otherTok
deriving DecidableEq, Repr

/-- Is the exact kind in `ParsedExpression.LEGAL_TOKENS`? -/
def legalTok : TokTy → Bool
  | .tSTRING => false
  | .otherTok => false
  | _ => true

/-- Does the exact kind have Python token *type* `token.OP`?  (All the legal
kinds other than `NAME` and `NUMBER` are operator/punctuation tokens.) -/
def tokTyIsOp : TokTy → Bool
  | .tNAME => false
  | .tNUMBER => false
  | .tSTRING => false
  | .otherTok => false
  | _ => true

/-- `token.tok_name[tok.type]`, used in the bad-token message when a token
has an empty or blank string. -/
def tokTyName : TokTy → String
  | .tNAME => "NAME"
  | .tNUMBER => "NUMBER"
  | .tSTRING => "STRING"
  | .otherTok => "ERRORTOKEN"
  | _ => "OP"

/-- One token of `self._py_tokens`: exact kind, source text, and the start
and end columns on the (single) line. -/
structure PyTok where
  exactTy : TokTy
  str : String
  startCol : Nat
  endCol : Nat
deriving DecidableEq, Repr

/-- `tok.string.startswith('__digit__')`, at the character level
(`"__digit__"` is 9 characters). -/
def strHasMarker (s : String) : Bool := s.data.take 9 = "__digit__".data

/-- `tok.string[9:]`: the string without its 9-character marker. -/
def strDropMarker (s : String) : String := String.mk (s.data.drop 9)

/-- `_match_tokens`' contribution of one token to the matched string:
a `NAME` token starting with the internal `__digit__` marker (added by
`__prep_expr_for_tokenization` to identifiers that begin with a digit) is
reported without the marker. -/
def tokMatchStr (tk : PyTok) : String :=
  if tk.exactTy = TokTy.tNAME && strHasMarker tk.str then strDropMarker tk.str else tk.str

/-- One allowed term model: its class name and its
`Meta.expression_term_token_pattern` (default `(token.NAME,)`).  Distinct
term models of one expression have distinct class names (they arise from
distinct related classes). -/
structure TermModel where
  name : String
  pattern : List TokTy
deriving DecidableEq, Repr

/-- The caller-supplied registry `self._objs`: type name → association list
of (model id, model instance handle). -/
abbrev Registry := List (String × List (String × String))

/-- `self._objs.get(model_type, {})`. -/
def objsGet (objs : Registry) (ty : String) : List (String × String) :=
  match List.find? (fun e => e.1 = ty) objs with
  | some e => e.2
  | none => []

/-- `self._objs[model_type][id]` (as an `Option`). -/
def objsLookup (objs : Registry) (ty id : String) : Option String :=
  (List.find? (fun e => e.1 = id) (objsGet objs ty)).map (fun e => e.2)

/-- `ObjTablesTokenCodes`. -/
inductive OCode where
  | obj_id | math_func_id | number | op | other
deriving DecidableEq, Repr

/-- `ObjTablesToken` (the `model_type`/`model_id`/`model` fields default to
`None` and are set only for `obj_id` tokens; `model_type` and `model` are
the type's name and the instance handle from the registry). -/
structure OTok where
  code : OCode
  token_string : String
  model_type : Option String := none
  model_id : Option String := none
  model : Option String := none
deriving DecidableEq, Repr

/-- `LexMatch`: tokens produced by a resolution attempt, and the number of
Python tokens it consumes. -/
structure LexMatch where
  obj_tables_tokens : List OTok
  num_py_tokens : Nat
deriving DecidableEq, Repr

/-- `IdMatch`: a candidate bare-reference resolution. -/
structure IdMatch where
  model : TermModel
  match_string : String
deriving DecidableEq, Repr

/-- The error values `tokenize` and its helpers accumulate.  Each
constructor stands for one message format of the source with its variable
parts as payload; the surrounding boilerplate (expression text, owning
class and attribute) is elided.  Payload lists appear in term-model order:
the source builds them from Python sets, whose iteration order is
unspecified (`spec.md` §9 flags this as a nondeterminism defect). -/
inductive Err where
  | exprCannotBeEmpty
  | badTokens (toks : List String)
  | notIdOfObject (identifiers : List String)
  | multipleIdMatches (pairs : List (String × String))
  | disambigBadType (matchString typeName : String)
  | disambigNotId (matchString idStr typeName : String)
  | noValidFunctionsAttr (funcName : String)
  | funcNotAllowed (funcName : String)
  | ambiguousToken (tokenString : String) (matchingItems : List String)
  | syntaxErrorInCompile
deriving DecidableEq, Repr

/-- The `ParsedExpressionError`s `tokenize` can raise (defensive faults:
"No matches or errors found" and "Multiple longest matches"). -/
inductive Exn where
  | noMatchesOrErrors
  | multipleLongestMatches
deriving DecidableEq, Repr

/-- The result of one resolution attempt: no match, an error message, or a
`LexMatch` (the source returns `None`, a `str`, or a `LexMatch`). -/
inductive RRes where
  | noMatch
  | errS (e : Err)
  | lexMatch (m : LexMatch)
deriving DecidableEq, Repr

/-- The raw inputs of a `ParsedExpression` fixed by `__init__`:
everything `tokenize` reads that is not derived state. -/
structure PE where
  /-- `model_cls.__name__` (used in messages only). -/
  model_cls : String
  /-- the expression attribute name (messages only). -/
  attr : String
  /-- `self.expression` (whitespace-stripped). -/
  expression : String
  /-- `self._py_tokens`. -/
  pyToks : List PyTok
  /-- `self.term_models` (a Python set; modelled as a list). -/
  term_models : List TermModel
  /-- `self._objs`. -/
  objs : Registry
  /-- the function names of `model_cls.Meta.expression_valid_functions`;
  `none` when `Meta` lacks the attribute. -/
  valid_functions : Option (List String)
deriving Repr

/-- The instance-level `self.valid_functions` name set (empty when the
`Meta` attribute is absent). -/
def PE.funcNames (pe : PE) : List String := pe.valid_functions.getD []

/-- `self._py_tokens[idx]` (the default is never reached at indices the
code accesses). -/
def PE.tokAt (pe : PE) (idx : Nat) : PyTok :=
  pe.pyToks.getD idx ⟨.otherTok, "", 0, 0⟩

/-- Pairwise: does each token have the required exact kind? -/
def typesMatch : List PyTok → List TokTy → Bool
  | [], [] => true
  | tk :: tks, ty :: tys => tk.exactTy = ty && typesMatch tks tys
  | _, _ => false

/-- Consecutive tokens must abut (`prev.end == cur.start`): an obj_tables
primary attribute cannot contain whitespace between its pattern tokens. -/
def chainAdjacent : List PyTok → Bool
  | [] => true
  | [_] => true
  | a :: b :: rest => a.endCol = b.startCol && chainAdjacent (b :: rest)

/-- `_match_tokens`: `""` plays the role of the source's falsy `False`
return (the source's callers test the result only for truthiness, and an
empty matched string is equally falsy). -/
def matchTokens (pe : PE) (pattern : List TokTy) (idx : Nat) : String :=
  if pattern = [] then ""
  else if pe.pyToks.length - idx < pattern.length then ""
  else
    let window := (pe.pyToks.drop idx).take pattern.length
    if typesMatch window pattern && chainAdjacent window then
      String.join (window.map tokMatchStr)
    else ""

/-- `_get_model_type`: the term model named `nm`, if any. -/
def getModelType (pe : PE) (nm : String) : Option TermModel :=
  pe.term_models.find? (fun tm => tm.name = nm)

/-- `casefold()` (modelled as ASCII lower-casing; the ids exercised here
are ASCII). -/
def caseFoldStr (s : String) : String := s.toLower

/-- `_get_disambiguated_id`: try to parse `ModelType.model_id` at `idx`. -/
def getDisambiguatedId (pe : PE) (idx : Nat) (case_fold_match : Bool) : RRes :=
  let m := matchTokens pe [.tNAME, .tDOT, .tNAME] idx
  if m = "" then .noMatch
  else
    let disambig_model_type := (pe.tokAt idx).str
    let possible_model_id0 := (pe.tokAt (idx + 2)).str
    let possible_model_id :=
      if case_fold_match then caseFoldStr possible_model_id0 else possible_model_id0
    match getModelType pe disambig_model_type with
    | none => .errS (.disambigBadType m disambig_model_type)
    | some model_type =>
      match objsLookup pe.objs model_type.name possible_model_id with
      | none => .errS (.disambigNotId m possible_model_id disambig_model_type)
      | some inst =>
        .lexMatch ⟨[⟨.obj_id, m, some model_type.name, some possible_model_id, some inst⟩], 3⟩

/-- The per-term-model match strings computed by `_get_related_obj_id`'s
loop. -/
def relatedResults (pe : PE) (idx : Nat) : List (TermModel × String) :=
  pe.term_models.map (fun tm => (tm, matchTokens pe tm.pattern idx))

/-- `token_matches`: the non-empty match strings (deduplicated, as the
source's `set` does). -/
def tokenMatches (pe : PE) (idx : Nat) : List String :=
  (((relatedResults pe idx).map (fun r => r.2)).filter (fun s => !(s = ""))).eraseDups

/-- The registry key a match string is looked up under. -/
def matchKey (case_fold_match : Bool) (s : String) : String :=
  if case_fold_match then caseFoldStr s else s

/-- `id_matches`: the matches whose (possibly casefolded) string is a known
instance id of the matched term model. -/
def idMatches (pe : PE) (idx : Nat) (case_fold_match : Bool) : List IdMatch :=
  (relatedResults pe idx).filterMap fun r =>
    if r.2 = "" then none
    else if (objsLookup pe.objs r.1.name (matchKey case_fold_match r.2)).isSome then
      some ⟨r.1, r.2⟩
    else none

/-- The longest match-string length among a list of id matches. -/
def maxMatchLen (l : List IdMatch) : Nat :=
  (l.map (fun m => m.match_string.length)).foldl max 0

/-- The id matches of maximal match-string length. -/
def longestIdMatches (l : List IdMatch) : List IdMatch :=
  l.filter (fun m => m.match_string.length = maxMatchLen l)

/-- `_get_related_obj_id`: try to parse a bare related-object id at `idx`.
The source's "keep only the longest" step sorts by match-string length and
pops the maximal ones; `longestIdMatches` computes the same set. -/
def getRelatedObjId (pe : PE) (idx : Nat) (case_fold_match : Bool) : RRes :=
  let token_matches := tokenMatches pe idx
  let id_matches := idMatches pe idx case_fold_match
  if id_matches = [] then
    if !(token_matches = []) then .errS (.notIdOfObject token_matches)
    else .noMatch
  else
    let id_matches2 :=
      if 1 < id_matches.length then longestIdMatches id_matches else id_matches
    if 1 < id_matches2.length then
      .errS (.multipleIdMatches (id_matches2.map (fun m => (m.model.name, m.match_string))))
    else
      match id_matches2 with
      | [] => .noMatch
      | m :: _ =>
        let right_case := matchKey case_fold_match m.match_string
        match objsLookup pe.objs m.model.name right_case with
        | some inst =>
          .lexMatch ⟨[⟨.obj_id, m.match_string, some m.model.name, some right_case, some inst⟩],
                     m.model.pattern.length⟩
        | none => .noMatch

/-- `_get_func_call_id`: try to parse `func(` at `idx`.  The function name
is the raw token string; `case_fold_match` is ignored by the source. -/
def getFuncCallId (pe : PE) (idx : Nat) (_case_fold_match : Bool) : RRes :=
  let m := matchTokens pe [.tNAME, .tLPAR] idx
  if m = "" then .noMatch
  else
    let func_name := (pe.tokAt idx).str
    match pe.valid_functions with
    | none => .errS (.noValidFunctionsAttr func_name)
    | some fns =>
      if func_name ∈ fns then
        .lexMatch ⟨[{ code := .math_func_id, token_string := func_name }, { code := .op, token_string := "(" }], 2⟩
      else .errS (.funcNotAllowed func_name)

/-- `self.related_objects`, flattened to its (type name, id, instance)
entries (`__reset_tokenization` initializes one empty dict per term model;
empty dicts contribute no entries). -/
abbrev RelObjs := List (String × String × String)

/-- `self.related_objects[type][id] = model` (dict update). -/
def relInsert (m : RelObjs) (ty id inst : String) : RelObjs :=
  if (List.any m fun e => e.1 = ty && e.2.1 = id) then
    List.map (fun e => if e.1 = ty && e.2.1 = id then (ty, id, inst) else e) m
  else m ++ [(ty, id, inst)]

/-- `self.related_objects[type][id]` (as an `Option`). -/
def relLookup (m : RelObjs) (ty id : String) : Option String :=
  (List.find? (fun e => e.1 = ty && e.2.1 = id) m).map (fun e => e.2.2)

/-- Record one `LexMatch`'s `obj_id` tokens in `related_objects`. -/
def recordMatch (rel : RelObjs) (toks : List OTok) : RelObjs :=
  toks.foldl
    (fun acc ot =>
      if ot.code = OCode.obj_id then
        relInsert acc (ot.model_type.getD "") (ot.model_id.getD "") (ot.model.getD "")
      else acc)
    rel

/-- The token code of a non-`NAME` Python token (`op` for operator tokens,
`number` for numbers, `other` otherwise). -/
def plainCode (ty : TokTy) : OCode :=
  if tokTyIsOp ty then .op else if ty = TokTy.tNUMBER then .number else .other

/-- The main loop of `tokenize` (lines 1032–1088): resolve the token at
`idx`, append the produced tokens, record related objects, and advance.
`fuel` bounds the number of iterations; every iteration consumes at least
one unit, and callers pass `pe.pyToks.length + 1`, which the loop can never
exhaust before `idx` passes the end.  On the source's `break` (errors but
no matches) the tokens produced so far are returned alongside the errors —
they stay in `self._obj_tables_tokens` and the ambiguity post-scan still
runs over them. -/
def tokLoop (pe : PE) (case_fold_match : Bool) :
    Nat → Nat → List OTok → RelObjs → Except Exn (List OTok × RelObjs × List Err)
  | 0, _, toks, rel => .ok (toks, rel, [])
  | fuel + 1, idx, toks, rel =>
    if pe.pyToks.length ≤ idx then .ok (toks, rel, [])
    else
      let tk := pe.tokAt idx
      if !(tk.exactTy = TokTy.tNAME) then
        tokLoop pe case_fold_match fuel (idx + 1)
          (toks ++ [{ code := plainCode tk.exactTy, token_string := tk.str }]) rel
      else
        let results := [getRelatedObjId pe idx case_fold_match,
                        getDisambiguatedId pe idx case_fold_match,
                        getFuncCallId pe idx case_fold_match]
        let tmp_errors := results.filterMap fun r =>
          match r with | .errS e => some e | _ => none
        let lexMs := results.filterMap fun r =>
          match r with | .lexMatch m => some m | _ => none
        if lexMs = [] && tmp_errors = [] then .error .noMatchesOrErrors
        else if lexMs = [] then .ok (toks, rel, tmp_errors)
        else
          let longest_length := (lexMs.map (fun m => m.num_py_tokens)).foldl max 0
          let longest_matches := lexMs.filter (fun m => m.num_py_tokens = longest_length)
          match longest_matches with
          | [m] =>
            tokLoop pe case_fold_match fuel (idx + m.num_py_tokens)
              (toks ++ m.obj_tables_tokens) (recordMatch rel m.obj_tables_tokens)
          | _ => .error .multipleLongestMatches

/-- The ambiguity post-scan (lines 1090–1105): flag any resolved id or
function name whose literal text matches an id of more than one term
model, or matches both an id and an allow-listed function name. -/
def ambigScan (pe : PE) (toks : List OTok) : List Err :=
  toks.filterMap fun ot =>
    if ot.code = OCode.obj_id || ot.code = OCode.math_func_id then
      let matching_items :=
        ((pe.term_models.filter
            (fun tm => (objsLookup pe.objs tm.name ot.token_string).isSome)).map
          (fun tm => tm.name)) ++
        (if ot.token_string ∈ pe.funcNames then ["function"] else [])
      if 1 < matching_items.length then
        some (.ambiguousToken ot.token_string matching_items)
      else none
    else none

/-- The bad tokens reported by lines 1018–1030 (a Python `set`; modelled
as a deduplicated list in scan order). -/
def badTokenStrings (pe : PE) : List String :=
  ((pe.pyToks.filter (fun tk => !(legalTok tk.exactTy))).map
    (fun tk => if !(tk.str = "") && !(tk.str = " ") then tk.str else tokTyName tk.exactTy)).eraseDups

/-- The derived state `__reset_tokenization` clears.  `related_objects`
and `lin_coeffs` are flattened to entry lists (the reset leaves one empty
dict per term model, which contributes no entries); the compiled
expressions are `none` when not compiled (the source's `''`); the compiled
namespaces are determined by the compiled expressions and elided. -/
structure Derived where
  related_objects : RelObjs
  lin_coeffs : List (String × String × ℚ)
  errors : List Err
  obj_tables_tokens : List OTok
  compiled_expression : Option (List OTok)
  compiled_expression_with_units : Option (List OTok)

/-- `__reset_tokenization`: every derived field is re-initialized from the
raw inputs alone; nothing of the previous derived state survives. -/
def resetTokenization (_pe : PE) (_d : Derived) : Derived :=
  ⟨[], [], [], [], none, none⟩

/-- `ParsedExpression.tokenize` together with the derived state it leaves
behind.  Python's `compile` of the generated expression string is external
code, abstracted by `compileOk` (the source catches `SyntaxError` from the
unit-less compilation; the unit-aware compilation succeeds whenever the
unit-less one does, since it only multiplies number tokens by a
dimensionless constant).  On the defensive `raise` paths the final state
is not observable (the exception propagates); the reset state stands for
it. -/
def tokenizeRun (pe : PE) (case_fold_match : Bool) (compileOk : List OTok → Bool)
    (d : Derived) :
    Except Exn (Option (List OTok) × Option RelObjs × Option (List Err)) × Derived :=
  let d0 := resetTokenization pe d
  if pe.expression = "" then
    (.ok (none, none, some [.exprCannotBeEmpty]), { d0 with errors := [.exprCannotBeEmpty] })
  else
    let bad := badTokenStrings pe
    if !(bad = []) then
      (.ok (none, none, some [.badTokens bad]), { d0 with errors := [.badTokens bad] })
    else
      match tokLoop pe case_fold_match (pe.pyToks.length + 1) 0 [] [] with
      | .error e => (.error e, d0)
      | .ok (toks, rel, loopErrs) =>
        let errs := loopErrs ++ ambigScan pe toks
        if !(errs = []) then
          (.ok (none, none, some errs),
           { d0 with errors := errs, obj_tables_tokens := toks, related_objects := rel })
        else if compileOk toks then
          (.ok (some toks, some rel, none),
           { d0 with obj_tables_tokens := toks, related_objects := rel,
                     compiled_expression := some toks,
                     compiled_expression_with_units := some toks })
        else
          (.ok (none, none, some [.syntaxErrorInCompile]),
           { d0 with errors := [], obj_tables_tokens := toks, related_objects := rel })

/-- The return value of `ParsedExpression.tokenize`. -/
def tokenize (pe : PE) (case_fold_match : Bool) (compileOk : List OTok → Bool) :
    Except Exn (Option (List OTok) × Option RelObjs × Option (List Err)) :=
  (tokenizeRun pe case_fold_match compileOk ⟨[], [], [], [], none, none⟩).1

/-! ### `ParsedExpression.eval` -/

/-- The exceptions the `eval(expression, {}, namespace)` call can raise,
as classified by the source's three `except` clauses. -/
inductive PyExn where
  | syntaxError (msg : String)
  | nameError (msg : String)
  | otherError (msg : String)
deriving DecidableEq, Repr

/-- The classification tag the re-raised message starts with. -/
def causeTag : PyExn → String
  | .syntaxError _ => "SyntaxError:"
  | .nameError _ => "NameError:"
  | .otherError _ => "Exception:"

/-- `str(error)` of the caught exception. -/
def exnPayload : PyExn → String
  | .syntaxError m => m
  | .nameError m => m
  | .otherError m => m

/-- `error_suffix` of `ParsedExpression.eval`. -/
def errorSuffix (pe : PE) : String :=
  " cannot eval expression '" ++ pe.expression ++ "' in " ++ pe.model_cls ++ "; "

/-- `ParsedExpressionError` (carrying its message). -/
structure PEErr where
  msg : String
deriving DecidableEq, Repr

/-- The evaluation step of `ParsedExpression.eval` (lines 1179–1221):
check that a compiled expression exists, then execute it — the execution
of the compiled code object is CPython's `eval`, abstracted as `run` —
and re-wrap any failure.  The namespace preparation preceding the `try`
block binds values for the related objects and does not affect which
exception type the method can propagate. -/
def evalExpr {C V : Type} (pe : PE) (compiled : Option C)
    (run : C → Except PyExn V) : Except PEErr V :=
  match compiled with
  | none =>
    .error ⟨"Cannot evaluate '" ++ pe.expression ++ "', as it not been successfully compiled"⟩
  | some c =>
    match run c with
    | .ok v => .ok v
    | .error e => .error ⟨causeTag e ++ errorSuffix pe ++ exnPayload e⟩

/-! ### `ParsedExpression.recreate_whitespace` -/

/-- `_get_trailing_whitespace`: the gap between a token's end column and
the next token's start column (0 after the last token; Python's
`' ' * n` yields `''` for a negative `n`, as truncated `Nat` subtraction
does). -/
def getTrailingWhitespace (pe : PE) (idx : Nat) : Nat :=
  if pe.pyToks.length - 1 ≤ idx then 0
  else (pe.tokAt (idx + 1)).startCol - (pe.tokAt idx).endCol

/-- A run of `n` spaces. -/
def spacesOf (n : Nat) : String := String.mk (List.replicate n ' ')

/-- The join step of `recreate_whitespace`: each of `expr`'s tokens
(`__digit__`-marker stripped from `NAME` tokens that start with it),
followed by the original expression's trailing whitespace at that index. -/
def joinPieces (pe : PE) (tks : List PyTok) : String :=
  String.join ((tks.enum.map
    (fun p => tokMatchStr p.2 ++ spacesOf (getTrailingWhitespace pe p.1))))

/-- `recreate_whitespace`.  Tokenizing the prepped argument expression is
CPython's tokenizer (external code); its outcome — the stripped token
list, or a `tokenize.TokenError` — is the `tks` argument. -/
def recreateWhitespace (pe : PE) (tks : Except String (List PyTok)) : Except PEErr String :=
  match tks with
  | .error e => .error ⟨"parsing creates a Python syntax error: '" ++ e ++ "'"⟩
  | .ok tks =>
    if !(tks.length = pe.pyToks.length) then
      .error ⟨"cannot recreate whitespace, token count differs"⟩
    else .ok (joinPieces pe tks)

/-- Decidable equality for `Except` results (used to evaluate concrete
runs). -/
instance exceptDecEq {e a : Type} [DecidableEq e] [DecidableEq a] : DecidableEq (Except e a) :=
  fun u v =>
  match u, v with
  | .ok x, .ok y =>
    if h : x = y then isTrue (by rw [h]) else isFalse (by intro hh; cases hh; exact h rfl)
  | .error x, .error y =>
    if h : x = y then isTrue (by rw [h]) else isFalse (by intro hh; cases hh; exact h rfl)
  | .ok _, .error _ => isFalse (by intro hh; cases hh)
  | .error _, .ok _ => isFalse (by intro hh; cases hh)

/-- Well-formedness of a produced token: an `obj_id` token always carries
a type name, an id, and the registry instance stored under them (both
resolvers build their tokens from a successful registry lookup). -/
def tokOK (pe : PE) (ot : OTok) : Prop :=
  ot.code = OCode.obj_id →
    ∃ ty id inst, ot.model_type = some ty ∧ ot.model_id = some id ∧
      ot.model = some inst ∧ objsLookup pe.objs ty id = some inst

/-- The invariant `tokenize`'s loop maintains between its produced token
list and `related_objects`: every produced `obj_id` token is well formed,
and the `related_objects` entries are exactly the (type, id, instance)
triples carried by the produced `obj_id` tokens. -/
def relInv (pe : PE) (toks : List OTok) (rel : RelObjs) : Prop :=
  (∀ ot ∈ toks, tokOK pe ot) ∧
  (∀ ty id inst, relLookup rel ty id = some inst ↔
    ∃ ot ∈ toks, ot.code = OCode.obj_id ∧ ot.model_type = some ty ∧
      ot.model_id = some id ∧ ot.model = some inst)

/-! ### Scenario configurations for the ambiguity claims -/

/-- A `ParsedExpression` for the bare expression `x` where two distinct
term types (named `nA` and `nB`, both with the default single-`NAME` token
pattern) each register an instance under the identical id `x`. -/
def peBareId (nA nB x iA iB : String) : PE :=
  ⟨"M", "expression", x, [⟨.tNAME, x, 0, x.length⟩],
   [⟨nA, [.tNAME]⟩, ⟨nB, [.tNAME]⟩],
   [(nA, [(x, iA)]), (nB, [(x, iB)])], some []⟩

/-- The same configuration for the type-qualified expression `nA.x`
(three abutting tokens `NAME . NAME`). -/
def peQualId (nA nB x iA iB : String) : PE :=
  ⟨"M", "expression", nA ++ "." ++ x,
   [⟨.tNAME, nA, 0, nA.length⟩, ⟨.tDOT, ".", nA.length, nA.length + 1⟩,
    ⟨.tNAME, x, nA.length + 1, nA.length + 1 + x.length⟩],
   [⟨nA, [.tNAME]⟩, ⟨nB, [.tNAME]⟩],
   [(nA, [(x, iA)]), (nB, [(x, iB)])], some []⟩

/-! ## Theorems -/

/-! ### Generic facts about node scans -/

theorem anyNode_mono {p q : PyAST → Bool} (hpq : ∀ n, p n = true → q n = true) :
    ∀ t, PyAST.anyNode p t = true → PyAST.anyNode q t = true := by
  intro t
  induction t with
  | num n => simpa [PyAST.anyNode] using hpq _
  | name s => simpa [PyAST.anyNode] using hpq _
  | unary op x ih =>
    simp only [PyAST.anyNode, Bool.or_eq_true]
    rintro (h | h)
    · exact Or.inl (hpq _ h)
    · exact Or.inr (ih h)
  | bin l op r ihl ihr =>
    simp only [PyAST.anyNode, Bool.or_eq_true]
    rintro ((h | h) | h)
    · exact Or.inl (Or.inl (hpq _ h))
    · exact Or.inl (Or.inr (ihl h))
    · exact Or.inr (ihr h)
  | call f a ih =>
    simp only [PyAST.anyNode, Bool.or_eq_true]
    rintro (h | h)
    · exact Or.inl (hpq _ h)
    · exact Or.inr (ih h)
  | cmp l r ihl ihr =>
    simp only [PyAST.anyNode, Bool.or_eq_true]
    rintro ((h | h) | h)
    · exact Or.inl (Or.inl (hpq _ h))
    · exact Or.inl (Or.inr (ihl h))
    · exact Or.inr (ihr h)

theorem validateNodeTypes_false_of_disallowed {t : PyAST}
    (h : hasDisallowedNode t = true) : validateNodeTypes t = false := by
  have : PyAST.anyNode (fun n => !(nodeTypeOK n)) t = true := by
    refine anyNode_mono (fun n hn => ?_) t h
    cases n with
    | num n => simp at hn
    | name s => simp at hn
    | unary op x => simp at hn
    | bin l op r =>
      cases op <;> simp_all [nodeTypeOK]
    | call f a => simp [nodeTypeOK]
    | cmp l r => simp [nodeTypeOK]
  simp [validateNodeTypes, this]

/-! ### C2 -/

/-- C2: for every expression whose abstract syntax tree contains a function
call, a comparison operator, a division, or an exponentiation — a node kind
outside the set accepted by `_validate_node_types` —
`LinearParsedExpressionValidator.validate` returns `is_linear = false`. -/
theorem disallowed_node_not_linear (t : PyAST) (fuel : Nat)
    (h : hasDisallowedNode t = true) : (lpevValidate fuel t).is_linear = false := by
  simp [lpevValidate, validateNodeTypes_false_of_disallowed h]

/-- Witness for C2 at the expression `p_1 / 2` (a division node). -/
theorem disallowed_node_not_linear_witness :
    hasDisallowedNode (PyAST.bin (.name "p_1") .div (.num 2)) = true ∧
      (lpevValidate 1 (PyAST.bin (.name "p_1") .div (.num 2))).is_linear = false :=
  ⟨by decide, disallowed_node_not_linear _ 1 (by decide)⟩

/-! ### C3 -/

/-- C3: `ParsedExpression.tokenize` is total over its result shape: every
return is either a complete token list with the related-objects map and no
errors, or no token list and no map together with a non-empty error list —
never a partial token list alongside errors and never an empty result
without errors.  (The defensive `ParsedExpressionError` raises of the
source — "No matches or errors found", "Multiple longest matches" — exit
exceptionally and return nothing; they are the `Except.error` branch.) -/
theorem tokenize_total_shape (pe : PE) (cf : Bool) (compileOk : List OTok → Bool) :
    (∃ toks rel, tokenize pe cf compileOk = .ok (some toks, some rel, none)) ∨
    (∃ errs, tokenize pe cf compileOk = .ok (none, none, some errs) ∧ errs ≠ []) ∨
    (∃ e, tokenize pe cf compileOk = .error e) := by
  unfold tokenize tokenizeRun
  by_cases h1 : pe.expression = ""
  · right; left
    exact ⟨[.exprCannotBeEmpty], by simp [h1], by simp⟩
  · by_cases h2 : badTokenStrings pe = []
    · rcases hloop : tokLoop pe cf (pe.pyToks.length + 1) 0 [] [] with e | ⟨toks, rel, loopErrs⟩
      · right; right
        exact ⟨e, by simp [h1, h2, hloop]⟩
      · by_cases h3 : loopErrs ++ ambigScan pe toks = []
        · by_cases h4 : compileOk toks = true
          · left
            exact ⟨toks, rel, by simp [h1, h2, hloop, h3, h4]⟩
          · right; left
            refine ⟨[.syntaxErrorInCompile], ?_, by simp⟩
            simp [h1, h2, hloop, h3, h4]
        · right; left
          exact ⟨loopErrs ++ ambigScan pe toks, by simp [h1, h2, hloop, h3], h3⟩
    · right; left
      exact ⟨[.badTokens (badTokenStrings pe)], by simp [h1, h2], by simp⟩

/-! ### C7 -/

theorem tokenizeRun_state_independent (pe : PE) (cf : Bool)
    (compileOk : List OTok → Bool) (d d' : Derived) :
    tokenizeRun pe cf compileOk d = tokenizeRun pe cf compileOk d' := rfl

/-- C7: `tokenize` is idempotent: a second call on the same
`ParsedExpression`, starting from whatever derived state the first call
left behind, returns the identical result (token list, related objects,
error list) and leaves the identical derived state, because every call
first resets all derived state (`__reset_tokenization`) before re-deriving
it. -/
theorem tokenize_idempotent (pe : PE) (cf : Bool) (compileOk : List OTok → Bool)
    (d : Derived) :
    tokenizeRun pe cf compileOk (tokenizeRun pe cf compileOk d).2 =
      tokenizeRun pe cf compileOk d :=
  tokenizeRun_state_independent pe cf compileOk _ d

/-! ### C9 -/

/-- C9: every failure of the compiled-expression evaluation — syntax
error, unresolved name, or any other runtime exception — is caught and
re-raised as a single `ParsedExpressionError` whose message is the cause
classification tag (`SyntaxError:` / `NameError:` / `Exception:`) followed
by `error_suffix`, which carries the expression text and the owning model
type name, followed by the underlying message.  The underlying exception
type is never propagated: the result type of `evalExpr` admits only
`ParsedExpressionError` failures. -/
theorem eval_wraps_failures {C V : Type} (pe : PE) (compiled : Option C)
    (run : C → Except PyExn V) (c : C) (e : PyExn)
    (hc : compiled = some c) (he : run c = .error e) :
    evalExpr pe compiled run = .error ⟨causeTag e ++ errorSuffix pe ++ exnPayload e⟩ := by
  subst hc
  simp [evalExpr, he]

/-- Witness for C9: a division-by-zero failure in `1 / p_0` owned by
`FunctionExpression`. -/
theorem eval_wraps_failures_witness :
    evalExpr (C := Unit) (V := ℚ)
        ⟨"FunctionExpression", "expression", "1 / p_0", [], [], [], none⟩ (some ())
        (fun _ => .error (.otherError "division by zero")) =
      .error ⟨causeTag (.otherError "division by zero") ++
        errorSuffix ⟨"FunctionExpression", "expression", "1 / p_0", [], [], [], none⟩ ++
        exnPayload (.otherError "division by zero")⟩ :=
  eval_wraps_failures _ _ _ () _ rfl rfl

/-! ### C10 -/

/-- C10 counterexample: the claim's final clause — that the `__digit__`
marker "never appears in the regenerated text" — fails.  For a `NAME`
token whose text is the marker doubled (`__digit____digit__x`, a single
Python identifier token), `recreate_whitespace` strips only the first
marker, and the regenerated text is `"__digit__" ++ "x"`: it begins with
the marker. -/
theorem recreate_whitespace_marker_counterexample :
    recreateWhitespace ⟨"M", "expression", "y", [⟨.tNAME, "y", 0, 1⟩], [], [], none⟩
        (.ok [⟨.tNAME, "__digit____digit__x", 0, 19⟩]) = .ok ("__digit__" ++ "x") := by
  decide

/-- C10 (amended): `recreate_whitespace(expr)` raises a
`ParsedExpressionError` iff tokenizing `expr` fails or `expr`'s token count
differs from the original expression's; on success it returns `expr`'s
tokens joined with exactly the inter-token whitespace of the original
expression, with the `__digit__` marker stripped from every `NAME` token
that starts with it (a stripped token may still begin with the marker text
when the marker occurs doubled, so the marker can reappear). -/
theorem recreate_whitespace_spec (pe : PE) (tks : Except String (List PyTok)) :
    ((∃ m, recreateWhitespace pe tks = .error m) ↔
      (∃ e, tks = .error e) ∨ (∃ l, tks = .ok l ∧ l.length ≠ pe.pyToks.length)) ∧
    (∀ l, tks = .ok l → l.length = pe.pyToks.length →
      recreateWhitespace pe tks = .ok (joinPieces pe l)) := by
  constructor
  · cases tks with
    | error e =>
      simp only [recreateWhitespace]
      exact ⟨fun _ => Or.inl ⟨e, rfl⟩, fun _ => ⟨_, rfl⟩⟩
    | ok l =>
      by_cases hl : l.length = pe.pyToks.length
      · simp [recreateWhitespace, hl]
      · simp [recreateWhitespace, hl]
  · rintro l rfl hl
    simp [recreateWhitespace, hl]

/-- Witness for C10's amended theorem: a one-token expression regenerated
successfully. -/
theorem recreate_whitespace_spec_witness :
    recreateWhitespace ⟨"M", "expression", "y", [⟨.tNAME, "y", 0, 1⟩], [], [], none⟩
        (.ok [⟨.tNAME, "p_1", 0, 3⟩]) =
      .ok (joinPieces ⟨"M", "expression", "y", [⟨.tNAME, "y", 0, 1⟩], [], [], none⟩
        [⟨.tNAME, "p_1", 0, 3⟩]) :=
  (recreate_whitespace_spec _ _).2 _ rfl (by decide)

/-! ### C6 -/

theorem longestIdMatches_singleton (m : IdMatch) : longestIdMatches [m] = [m] := by
  simp [longestIdMatches, maxMatchLen]

theorem mem_idMatches_lookup_isSome {pe : PE} {idx : Nat} {cf : Bool} {m : IdMatch}
    (h : m ∈ idMatches pe idx cf) :
    (objsLookup pe.objs m.model.name (matchKey cf m.match_string)).isSome = true := by
  simp only [idMatches, List.mem_filterMap] at h
  obtain ⟨r, _, hr⟩ := h
  by_cases h1 : r.2 = ""
  · simp [h1] at hr
  · by_cases h2 : (objsLookup pe.objs r.1.name (matchKey cf r.2)).isSome = true
    · simp only [h1, if_false, h2, if_true] at hr
      cases hr
      exact h2
    · simp [h1, h2] at hr

/-- C6: bare-reference resolution at a `NAME` token position:
if no token-pattern match is a known instance id but some pattern matched,
`_get_related_obj_id` returns the "contains the identifier(s) … which
aren't the id(s) of an object" error; of multiple id matches only those of
maximal matched-text length are kept — the result depends only on them —
and if more than one maximal-length match remains the resolver returns the
"contains multiple model object id matches" error instead of choosing one;
a unique maximal-length match (even with shorter matches present) resolves
to its registry instance. -/
theorem related_obj_id_resolution (pe : PE) (idx : Nat) (cf : Bool) :
    (idMatches pe idx cf = [] → tokenMatches pe idx ≠ [] →
      getRelatedObjId pe idx cf = .errS (.notIdOfObject (tokenMatches pe idx))) ∧
    (1 < (longestIdMatches (idMatches pe idx cf)).length →
      getRelatedObjId pe idx cf =
        .errS (.multipleIdMatches ((longestIdMatches (idMatches pe idx cf)).map
          (fun m => (m.model.name, m.match_string))))) ∧
    (∀ m, longestIdMatches (idMatches pe idx cf) = [m] →
      ∃ inst, objsLookup pe.objs m.model.name (matchKey cf m.match_string) = some inst ∧
        getRelatedObjId pe idx cf =
          .lexMatch ⟨[⟨.obj_id, m.match_string, some m.model.name,
            some (matchKey cf m.match_string), some inst⟩], m.model.pattern.length⟩) := by
  refine ⟨fun h1 h2 => ?_, fun h => ?_, fun m hm => ?_⟩
  · simp [getRelatedObjId, h1, h2]
  · rcases him : idMatches pe idx cf with _ | ⟨m0, ms⟩
    · rw [him] at h
      simp [longestIdMatches, maxMatchLen] at h
    · rcases ms with _ | ⟨m1, ms'⟩
      · rw [him, longestIdMatches_singleton] at h
        simp at h
      · rw [him] at h
        have hlen : 1 < (m0 :: m1 :: ms').length := by simp
        simp only [getRelatedObjId, him]
        rw [if_neg (by simp), if_pos hlen, if_pos h]
  · have hmem : m ∈ idMatches pe idx cf := by
      have : m ∈ longestIdMatches (idMatches pe idx cf) := by
        rw [hm]; exact List.mem_singleton.mpr rfl
      exact List.mem_of_mem_filter this
    obtain ⟨inst, hinst⟩ := Option.isSome_iff_exists.mp (mem_idMatches_lookup_isSome hmem)
    refine ⟨inst, hinst, ?_⟩
    rcases him : idMatches pe idx cf with _ | ⟨m0, ms⟩
    · rw [him] at hm
      simp [longestIdMatches, maxMatchLen] at hm
    · rcases ms with _ | ⟨m1, ms'⟩
      · rw [him, longestIdMatches_singleton] at hm
        have hm0 : m0 = m := List.singleton_injective hm
        subst hm0
        have g2 : ¬ (1 < ([m0] : List IdMatch).length) := by simp
        simp only [getRelatedObjId, him]
        rw [if_neg (by simp), if_neg g2, if_neg g2]
        simp [hinst]
      · rw [him] at hm
        have hlen : 1 < (m0 :: m1 :: ms').length := by simp
        simp only [getRelatedObjId, him]
        rw [if_neg (by simp), if_pos hlen, hm, if_neg (by simp)]
        simp [hinst]

/-! ### C5 -/

theorem join_nil : String.join [] = "" := rfl

theorem join_foldl (l : List String) : ∀ a : String, l.foldl (· ++ ·) a = a ++ String.join l := by
  induction l with
  | nil => intro a; simp [String.join]
  | cons b l ih =>
    intro a
    have hj : String.join (b :: l) = b ++ String.join l := by
      show List.foldl (· ++ ·) "" (b :: l) = _
      rw [List.foldl_cons, ih ("" ++ b)]
      simp
    rw [List.foldl_cons, ih (a ++ b), hj, String.append_assoc]

theorem join_cons (a : String) (l : List String) : String.join (a :: l) = a ++ String.join l := by
  show List.foldl (· ++ ·) "" (a :: l) = _
  rw [List.foldl_cons, join_foldl l ("" ++ a)]
  simp

theorem eraseDups_nil : (([] : List String)).eraseDups = [] := rfl

theorem eraseDups_pair_self (a : String) : [a, a].eraseDups = [a] := by
  simp [List.eraseDups, List.eraseDups.loop]

/-- C5: if two distinct allowed term types (named `nA` and `nB`) each
register an instance under the identical literal id `x`, then tokenizing
the bare identifier expression `x` produces the "multiple model object id
matches" semantic error — one type is never picked silently — while
tokenizing the type-qualified expression `nA.x` succeeds and resolves the
reference to `nA`'s instance `iA`.  The hypotheses only rule out
degenerate collisions: empty names, a type named like the id, and strings
that begin with the internal `__digit__` marker. -/
theorem ambiguous_bare_id_qualified_resolution (nA nB x iA iB : String)
    (hAB : nA ≠ nB) (hA : nA ≠ "") (hx : x ≠ "")
    (hxA : x ≠ nA) (hxB : x ≠ nB)
    (hmx : strHasMarker x = false) (hmA : strHasMarker nA = false) :
    tokenize (peBareId nA nB x iA iB) false (fun _ => true) =
      .ok (none, none, some [.multipleIdMatches [(nA, x), (nB, x)]]) ∧
    tokenize (peQualId nA nB x iA iB) false (fun _ => true) =
      .ok (some [⟨.obj_id, nA ++ ("." ++ x), some nA, some x, some iA⟩],
           some [(nA, x, iA)], none) := by
  constructor
  · simp [tokenize, tokenizeRun, tokLoop, getRelatedObjId, getDisambiguatedId, getFuncCallId,
      matchTokens, typesMatch, chainAdjacent, tokMatchStr, relatedResults, tokenMatches, idMatches,
      matchKey, getModelType, objsGet, objsLookup, badTokenStrings, ambigScan, PE.tokAt, peBareId,
      legalTok, tokTyName, plainCode, tokTyIsOp, recordMatch, relInsert, relLookup, maxMatchLen,
      longestIdMatches, PE.funcNames, resetTokenization, hAB, hA, hx, hxA, hxB, hmx, hmA,
      join_cons, join_nil, eraseDups_nil, eraseDups_pair_self, Nat.max_self, Nat.zero_max,
      String.append_assoc]
  · have hdot : (".").length = 1 := rfl
    have hxJ : ¬ (x = nA ++ ("." ++ x)) := by
      intro h
      apply congrArg String.length at h
      rw [String.length_append, String.length_append, hdot] at h
      omega
    have hJne : ¬ (nA ++ ("." ++ x) = "") := by
      intro h
      apply congrArg String.length at h
      rw [String.length_append, String.length_append, hdot] at h
      simp at h
    have h1 : getRelatedObjId (peQualId nA nB x iA iB) 0 false =
        .errS (.notIdOfObject [nA]) := by
      simp [getRelatedObjId, relatedResults, tokenMatches, idMatches, matchKey, matchTokens,
        typesMatch, chainAdjacent, tokMatchStr, objsLookup, objsGet, peQualId, PE.tokAt,
        join_cons, join_nil, hA, hx, hxA, hxB, hAB, hmx, hmA, List.eraseDups, List.eraseDups.loop]
    have h2 : getDisambiguatedId (peQualId nA nB x iA iB) 0 false =
        .lexMatch ⟨[⟨.obj_id, nA ++ ("." ++ x), some nA, some x, some iA⟩], 3⟩ := by
      simp [getDisambiguatedId, matchTokens, typesMatch, chainAdjacent, tokMatchStr, getModelType,
        objsLookup, objsGet, peQualId, PE.tokAt, join_cons, join_nil, hA, hx, hAB, hmx, hmA,
        String.append_assoc, hJne]
    have h3 : getFuncCallId (peQualId nA nB x iA iB) 0 false = .noMatch := by
      simp [getFuncCallId, matchTokens, typesMatch, chainAdjacent, peQualId, PE.tokAt]
    have hlen : (peQualId nA nB x iA iB).pyToks.length = 3 := rfl
    have hexp : ¬ ((peQualId nA nB x iA iB).expression = "") := by
      intro h
      apply congrArg String.length at h
      simp [peQualId, String.length_append] at h
      exact absurd h.1.2 (by decide)
    have hbad : badTokenStrings (peQualId nA nB x iA iB) = [] := by
      simp [badTokenStrings, peQualId, legalTok, List.eraseDups, List.eraseDups.loop]
    have htok0 : (peQualId nA nB x iA iB).tokAt 0 = ⟨.tNAME, nA, 0, nA.length⟩ := rfl
    simp only [tokenize, tokenizeRun, hlen, hbad, if_neg hexp]
    simp only [tokLoop, hlen, htok0, h1, h2, h3]
    simp [ambigScan, objsLookup, objsGet, PE.funcNames, recordMatch, relInsert, peQualId,
      plainCode, tokTyIsOp, resetTokenization, hxJ, hAB, hxA, hxB]

/-- Witness for C5 at `TypeA`/`TypeB` both holding an instance `x`. -/
theorem ambiguous_bare_id_qualified_resolution_witness :
    tokenize (peBareId "TypeA" "TypeB" "x" "iA" "iB") false (fun _ => true) =
      .ok (none, none, some [.multipleIdMatches [("TypeA", "x"), ("TypeB", "x")]]) ∧
    tokenize (peQualId "TypeA" "TypeB" "x" "iA" "iB") false (fun _ => true) =
      .ok (some [⟨.obj_id, "TypeA" ++ ("." ++ "x"), some "TypeA", some "x", some "iA"⟩],
           some [("TypeA", "x", "iA")], none) :=
  ambiguous_bare_id_qualified_resolution "TypeA" "TypeB" "x" "iA" "iB"
    (by decide) (by decide) (by decide) (by decide) (by decide) (by decide) (by decide)

/-- Witness for C6: a matched identifier that is no object's id yields the
"aren't the id(s) of an object" error, and two same-length id matches
yield the "multiple model object id matches" error. -/
theorem related_obj_id_resolution_witness :
    getRelatedObjId ⟨"M", "expression", "x", [⟨.tNAME, "x", 0, 1⟩],
        [⟨"TypeA", [.tNAME]⟩], [("TypeA", [("y", "iy")])], some []⟩ 0 false =
      .errS (.notIdOfObject (tokenMatches ⟨"M", "expression", "x", [⟨.tNAME, "x", 0, 1⟩],
        [⟨"TypeA", [.tNAME]⟩], [("TypeA", [("y", "iy")])], some []⟩ 0)) ∧
    getRelatedObjId (peBareId "TypeA" "TypeB" "x" "iA" "iB") 0 false =
      .errS (.multipleIdMatches
        ((longestIdMatches (idMatches (peBareId "TypeA" "TypeB" "x" "iA" "iB") 0 false)).map
          (fun m => (m.model.name, m.match_string)))) :=
  ⟨(related_obj_id_resolution _ 0 false).1 (by decide) (by decide),
   (related_obj_id_resolution (peBareId "TypeA" "TypeB" "x" "iA" "iB") 0 false).2.1 (by decide)⟩

/-! ### C4 -/


theorem relLookup_cons_pos (e : String × String × String) (rest : RelObjs) (ty id : String)
    (h : (decide (e.1 = ty) && decide (e.2.1 = id)) = true) :
    relLookup (e :: rest) ty id = some e.2.2 := by
  simp only [relLookup, List.find?, h]
  rfl

theorem relLookup_cons_neg (e : String × String × String) (rest : RelObjs) (ty id : String)
    (h : (decide (e.1 = ty) && decide (e.2.1 = id)) = false) :
    relLookup (e :: rest) ty id = relLookup rest ty id := by
  simp only [relLookup, List.find?, h]

theorem keyFalse {a b ty id : String} (h : ¬(ty = a ∧ id = b)) :
    (decide (a = ty) && decide (b = id)) = false := by
  by_cases hty : a = ty
  · by_cases hid : b = id
    · exact absurd ⟨hty.symm, hid.symm⟩ h
    · simp [hid]
  · simp [hty]

theorem relLookup_map_preserve (rel : RelObjs) (ty id inst ty' id' : String)
    (h : ¬(ty' = ty ∧ id' = id)) :
    relLookup (rel.map fun e => if e.1 = ty && e.2.1 = id then (ty, id, inst) else e) ty' id' =
      relLookup rel ty' id' := by
  induction rel with
  | nil => rfl
  | cons e rest ih =>
    rw [List.map_cons]
    by_cases he : e.1 = ty ∧ e.2.1 = id
    · have himg : (if e.1 = ty && e.2.1 = id then (ty, id, inst) else e) = (ty, id, inst) := by
        simp [he.1, he.2]
      have h2 : (decide (e.1 = ty') && decide (e.2.1 = id')) = false := by
        rw [he.1, he.2]; exact keyFalse h
      rw [himg, relLookup_cons_neg _ _ _ _ (keyFalse h), relLookup_cons_neg _ _ _ _ h2, ih]
    · have himg : (if e.1 = ty && e.2.1 = id then (ty, id, inst) else e) = e := by
        rcases not_and_or.mp he with hne | hne <;> simp [hne]
      rw [himg]
      by_cases hp : (decide (e.1 = ty') && decide (e.2.1 = id')) = true
      · rw [relLookup_cons_pos _ _ _ _ hp, relLookup_cons_pos _ _ _ _ hp]
      · rw [Bool.not_eq_true] at hp
        rw [relLookup_cons_neg _ _ _ _ hp, relLookup_cons_neg _ _ _ _ hp, ih]

theorem relLookup_map_hit (rel : RelObjs) (ty id inst : String)
    (hany : rel.any (fun e => e.1 = ty && e.2.1 = id) = true) :
    relLookup (rel.map fun e => if e.1 = ty && e.2.1 = id then (ty, id, inst) else e) ty id =
      some inst := by
  induction rel with
  | nil => simp at hany
  | cons e rest ih =>
    rw [List.map_cons]
    by_cases he : e.1 = ty ∧ e.2.1 = id
    · have himg : (if e.1 = ty && e.2.1 = id then (ty, id, inst) else e) = (ty, id, inst) := by
        simp [he.1, he.2]
      rw [himg, relLookup_cons_pos _ _ _ _ (by simp)]
    · have hkey : (decide (e.1 = ty) && decide (e.2.1 = id)) = false := by
        rcases not_and_or.mp he with hne | hne <;> simp [hne]
      have himg : (if e.1 = ty && e.2.1 = id then (ty, id, inst) else e) = e := by
        simp [hkey]
      simp only [List.any_cons, hkey, Bool.false_or] at hany
      rw [himg, relLookup_cons_neg _ _ _ _ hkey]
      exact ih hany

theorem relLookup_append_single (rel : RelObjs) (ty id inst ty' id' : String)
    (hnone : rel.any (fun e => e.1 = ty && e.2.1 = id) = false) :
    relLookup (rel ++ [(ty, id, inst)]) ty' id' =
      if ty' = ty ∧ id' = id then some inst else relLookup rel ty' id' := by
  induction rel with
  | nil =>
    rw [List.nil_append]
    by_cases h : ty' = ty ∧ id' = id
    · rw [relLookup_cons_pos _ _ _ _ (by simp [h.1, h.2]), if_pos h]
    · rw [relLookup_cons_neg _ _ _ _ (keyFalse h), if_neg h]
  | cons e rest ih =>
    simp only [List.any_cons, Bool.or_eq_false_iff] at hnone
    rw [List.cons_append]
    by_cases hp : (decide (e.1 = ty') && decide (e.2.1 = id')) = true
    · rw [relLookup_cons_pos _ _ _ _ hp]
      by_cases h : ty' = ty ∧ id' = id
      · exfalso
        simp only [Bool.and_eq_true, decide_eq_true_eq] at hp
        have hkey : (decide (e.1 = ty) && decide (e.2.1 = id)) = true := by
          simp [hp.1.trans h.1, hp.2.trans h.2]
        rw [hnone.1] at hkey
        exact absurd hkey (by simp)
      · rw [if_neg h, relLookup_cons_pos _ _ _ _ hp]
    · rw [Bool.not_eq_true] at hp
      rw [relLookup_cons_neg _ _ _ _ hp, ih hnone.2]
      by_cases h : ty' = ty ∧ id' = id
      · rw [if_pos h, if_pos h]
      · rw [if_neg h, if_neg h, relLookup_cons_neg _ _ _ _ hp]

theorem relLookup_relInsert (rel : RelObjs) (ty id inst ty' id' : String) :
    relLookup (relInsert rel ty id inst) ty' id' =
      if ty' = ty ∧ id' = id then some inst else relLookup rel ty' id' := by
  unfold relInsert
  by_cases hany : rel.any (fun e => e.1 = ty && e.2.1 = id) = true
  · rw [if_pos hany]
    by_cases h : ty' = ty ∧ id' = id
    · rw [if_pos h, h.1, h.2]
      exact relLookup_map_hit rel ty id inst hany
    · rw [if_neg h]
      exact relLookup_map_preserve rel ty id inst ty' id' h
  · rw [Bool.not_eq_true] at hany
    rw [if_neg (by simp [hany])]
    exact relLookup_append_single rel ty id inst ty' id' hany



theorem relInv_nil (pe : PE) : relInv pe [] [] := by
  constructor
  · intro ot h; simp at h
  · intro ty id inst
    simp [relLookup]

theorem relInv_step (pe : PE) (toks : List OTok) (rel : RelObjs) (ot : OTok)
    (hinv : relInv pe toks rel) (hok : tokOK pe ot) :
    relInv pe (toks ++ [ot])
      (if ot.code = OCode.obj_id then
        relInsert rel (ot.model_type.getD "") (ot.model_id.getD "") (ot.model.getD "")
      else rel) := by
  obtain ⟨hoks, hiff⟩ := hinv
  constructor
  · intro ot' h
    rcases List.mem_append.mp h with h | h
    · exact hoks ot' h
    · rw [List.mem_singleton.mp h]; exact hok
  · intro ty id inst
    by_cases hc : ot.code = OCode.obj_id
    · obtain ⟨ty0, id0, inst0, hty0, hid0, hinst0, hlk0⟩ := hok hc
      rw [if_pos hc]
      rw [hty0, hid0, hinst0]
      simp only [Option.getD_some]
      rw [relLookup_relInsert]
      by_cases hkey : ty = ty0 ∧ id = id0
      · rw [if_pos hkey]
        constructor
        · rintro ⟨rfl⟩
          exact ⟨ot, List.mem_append_right _ (List.mem_singleton.mpr rfl), hc,
            hkey.1 ▸ hty0, hkey.2 ▸ hid0, hinst0⟩
        · rintro ⟨ot', hmem, hc', hty', hid', hinst'⟩
          rcases List.mem_append.mp hmem with hmem | hmem
          · obtain ⟨ty1, id1, inst1, g1, g2, g3, g4⟩ := hoks ot' hmem hc'
            rw [hty'] at g1
            rw [hid'] at g2
            rw [hinst'] at g3
            cases g1; cases g2; cases g3
            rw [hkey.1, hkey.2] at g4
            rw [g4.symm.trans hlk0]
          · rw [List.mem_singleton.mp hmem] at hty' hid' hinst'
            rw [hty0] at hty'
            rw [hinst0] at hinst'
            cases hinst'
            rfl
      · rw [if_neg hkey, hiff ty id inst]
        constructor
        · rintro ⟨ot', hmem, rest⟩
          exact ⟨ot', List.mem_append_left _ hmem, rest⟩
        · rintro ⟨ot', hmem, hc', hty', hid', hinst'⟩
          rcases List.mem_append.mp hmem with hmem | hmem
          · exact ⟨ot', hmem, hc', hty', hid', hinst'⟩
          · exfalso
            rw [List.mem_singleton.mp hmem] at hty' hid'
            rw [hty0] at hty'
            rw [hid0] at hid'
            cases hty'; cases hid'
            exact hkey ⟨rfl, rfl⟩
    · rw [if_neg hc, hiff ty id inst]
      constructor
      · rintro ⟨ot', hmem, rest⟩
        exact ⟨ot', List.mem_append_left _ hmem, rest⟩
      · rintro ⟨ot', hmem, hc', rest⟩
        rcases List.mem_append.mp hmem with hmem | hmem
        · exact ⟨ot', hmem, hc', rest⟩
        · exact absurd (List.mem_singleton.mp hmem ▸ hc') hc

theorem relInv_recordMatch (pe : PE) (newToks : List OTok) :
    ∀ (toks : List OTok) (rel : RelObjs), relInv pe toks rel →
      (∀ ot ∈ newToks, tokOK pe ot) →
      relInv pe (toks ++ newToks) (recordMatch rel newToks) := by
  induction newToks with
  | nil =>
    intro toks rel hinv _
    simpa [recordMatch] using hinv
  | cons ot rest ih =>
    intro toks rel hinv hoks
    have h1 := relInv_step pe toks rel ot hinv (hoks ot (List.mem_cons_self _ _))
    have h2 := ih (toks ++ [ot]) _ h1 (fun ot' h => hoks ot' (List.mem_cons_of_mem _ h))
    simpa [recordMatch, List.append_assoc] using h2



theorem getDisambiguatedId_tokOK (pe : PE) (idx : Nat) (cf : Bool) (lm : LexMatch)
    (h : getDisambiguatedId pe idx cf = .lexMatch lm) :
    ∀ ot ∈ lm.obj_tables_tokens, tokOK pe ot := by
  simp only [getDisambiguatedId] at h
  by_cases hm : matchTokens pe [.tNAME, .tDOT, .tNAME] idx = ""
  · rw [if_pos hm] at h; cases h
  · rw [if_neg hm] at h
    rcases hmt : getModelType pe (pe.tokAt idx).str with _ | mt
    · rw [hmt] at h; cases h
    · rw [hmt] at h
      simp only [] at h
      rcases hlk : objsLookup pe.objs mt.name
          (if cf then caseFoldStr (pe.tokAt (idx + 2)).str else (pe.tokAt (idx + 2)).str) with _ | inst
      · rw [hlk] at h; cases h
      · rw [hlk] at h
        cases h
        intro ot hot
        rw [List.mem_singleton.mp hot]
        intro _
        exact ⟨mt.name, _, inst, rfl, rfl, rfl, hlk⟩

theorem getRelatedObjId_tokOK (pe : PE) (idx : Nat) (cf : Bool) (lm : LexMatch)
    (h : getRelatedObjId pe idx cf = .lexMatch lm) :
    ∀ ot ∈ lm.obj_tables_tokens, tokOK pe ot := by
  simp only [getRelatedObjId] at h
  by_cases h1 : idMatches pe idx cf = []
  · rw [if_pos h1] at h
    by_cases h2 : !(tokenMatches pe idx = [])
    · rw [if_pos h2] at h; cases h
    · rw [if_neg h2] at h; cases h
  · rw [if_neg h1] at h
    rcases hms : (if 1 < (idMatches pe idx cf).length then
        longestIdMatches (idMatches pe idx cf) else idMatches pe idx cf) with _ | ⟨m, rest⟩
    · rw [hms] at h
      simp at h
    · rw [hms] at h
      by_cases h3 : 1 < (m :: rest).length
      · rw [if_pos h3] at h; cases h
      · rw [if_neg h3] at h
        simp only [] at h
        rcases hlk : objsLookup pe.objs m.model.name (matchKey cf m.match_string) with _ | inst
        · rw [hlk] at h; cases h
        · rw [hlk] at h
          cases h
          intro ot hot
          rw [List.mem_singleton.mp hot]
          intro _
          exact ⟨m.model.name, _, inst, rfl, rfl, rfl, hlk⟩

theorem getFuncCallId_tokOK (pe : PE) (idx : Nat) (cf : Bool) (lm : LexMatch)
    (h : getFuncCallId pe idx cf = .lexMatch lm) :
    ∀ ot ∈ lm.obj_tables_tokens, tokOK pe ot := by
  simp only [getFuncCallId] at h
  by_cases hm : matchTokens pe [.tNAME, .tLPAR] idx = ""
  · rw [if_pos hm] at h; cases h
  · rw [if_neg hm] at h
    rcases hv : pe.valid_functions with _ | fns
    · rw [hv] at h; cases h
    · rw [hv] at h
      simp only [] at h
      by_cases hin : (pe.tokAt idx).str ∈ fns
      · rw [if_pos hin] at h
        cases h
        intro ot hot
        rcases List.mem_cons.mp hot with rfl | hot
        · intro hc; cases hc
        · rw [List.mem_singleton.mp hot]
          intro hc; cases hc
      · rw [if_neg hin] at h; cases h



theorem plainCode_ne_obj_id (ty : TokTy) : plainCode ty ≠ OCode.obj_id := by
  cases ty <;> decide

theorem tokLoop_inv (pe : PE) (cf : Bool) :
    ∀ (fuel idx : Nat) (toks : List OTok) (rel : RelObjs), relInv pe toks rel →
      ∀ toks' rel' errs, tokLoop pe cf fuel idx toks rel = .ok (toks', rel', errs) →
        relInv pe toks' rel' := by
  intro fuel
  induction fuel with
  | zero =>
    intro idx toks rel hinv toks' rel' errs h
    simp only [tokLoop] at h
    cases h
    exact hinv
  | succ fuel ih =>
    intro idx toks rel hinv toks' rel' errs h
    simp only [tokLoop] at h
    by_cases hidx : pe.pyToks.length ≤ idx
    · rw [if_pos hidx] at h
      cases h
      exact hinv
    · rw [if_neg hidx] at h
      by_cases hname : (pe.tokAt idx).exactTy = TokTy.tNAME
      · rw [if_neg (by simp [hname])] at h
        set r1 := getRelatedObjId pe idx cf with hr1
        set r2 := getDisambiguatedId pe idx cf with hr2
        set r3 := getFuncCallId pe idx cf with hr3
        by_cases hc1 : ([r1, r2, r3].filterMap fun r =>
            match r with | .lexMatch m => some m | _ => none) = [] ∧
            ([r1, r2, r3].filterMap fun r =>
              match r with | .errS e => some e | _ => none) = []
        · rw [if_pos (by simp [hc1.1, hc1.2])] at h
          cases h
        · rw [if_neg (by
            intro hb
            rw [Bool.and_eq_true, decide_eq_true_eq, decide_eq_true_eq] at hb
            exact hc1 ⟨hb.1, hb.2⟩)] at h
          by_cases hc2 : ([r1, r2, r3].filterMap fun r =>
              match r with | .lexMatch m => some m | _ => none) = []
          · rw [if_pos (by simp [hc2])] at h
            cases h
            exact hinv
          · rw [if_neg (by simp [hc2])] at h
            rcases hlg : ([r1, r2, r3].filterMap fun r =>
                match r with | .lexMatch m => some m | _ => none).filter
                (fun m => m.num_py_tokens = (([r1, r2, r3].filterMap fun r =>
                  match r with | .lexMatch m => some m | _ => none).map
                    (fun m => m.num_py_tokens)).foldl max 0) with _ | ⟨m, ms⟩
            · rw [hlg] at h
              cases h
            · rcases ms with _ | ⟨m2, ms'⟩
              · rw [hlg] at h
                have hmem : m ∈ ([r1, r2, r3].filterMap fun r =>
                    match r with | .lexMatch m => some m | _ => none) := by
                  have : m ∈ ([r1, r2, r3].filterMap fun r =>
                      match r with | .lexMatch m => some m | _ => none).filter
                      (fun m => m.num_py_tokens = (([r1, r2, r3].filterMap fun r =>
                        match r with | .lexMatch m => some m | _ => none).map
                          (fun m => m.num_py_tokens)).foldl max 0) := by
                    rw [hlg]
                    exact List.mem_singleton.mpr rfl
                  exact List.mem_of_mem_filter this
                have hok : ∀ ot ∈ m.obj_tables_tokens, tokOK pe ot := by
                  rw [List.mem_filterMap] at hmem
                  obtain ⟨r, hrmem, hr⟩ := hmem
                  have hr' : r = .lexMatch m := by
                    cases r with
                    | noMatch => simp at hr
                    | errS e => simp at hr
                    | lexMatch m' => simp at hr; rw [hr]
                  rcases List.mem_cons.mp hrmem with rfl | hrmem
                  · exact getRelatedObjId_tokOK pe idx cf m (hr1 ▸ hr')
                  · rcases List.mem_cons.mp hrmem with rfl | hrmem
                    · exact getDisambiguatedId_tokOK pe idx cf m (hr2 ▸ hr')
                    · rcases List.mem_cons.mp hrmem with rfl | hrmem
                      · exact getFuncCallId_tokOK pe idx cf m (hr3 ▸ hr')
                      · simp at hrmem
                exact ih (idx + m.num_py_tokens) (toks ++ m.obj_tables_tokens)
                  (recordMatch rel m.obj_tables_tokens)
                  (relInv_recordMatch pe m.obj_tables_tokens toks rel hinv hok)
                  toks' rel' errs h
              · rw [hlg] at h
                cases h
      · rw [if_pos (by simp [hname])] at h
        have hplain : relInv pe
            (toks ++ [(⟨plainCode (pe.tokAt idx).exactTy, (pe.tokAt idx).str, none, none, none⟩ : OTok)]) rel := by
          have := relInv_step pe toks rel
            (⟨plainCode (pe.tokAt idx).exactTy, (pe.tokAt idx).str, none, none, none⟩ : OTok)
            hinv (by intro hc; exact absurd hc (plainCode_ne_obj_id _))
          rwa [if_neg (plainCode_ne_obj_id _)] at this
        exact ih (idx + 1) _ rel hplain toks' rel' errs h



/-- C4: after a successful `tokenize` (no errors returned), the
`related_objects` mapping contains exactly the (type, id, instance)
entries carried by the `obj_id` tokens of the finalized token sequence:
a (type, id) pair maps to an instance iff some `obj_id` token carries
exactly that type, id and instance. -/
theorem related_objects_exact (pe : PE) (cf : Bool) (compileOk : List OTok → Bool)
    (toks : List OTok) (rel : RelObjs)
    (h : tokenize pe cf compileOk = .ok (some toks, some rel, none)) :
    ∀ ty id inst, relLookup rel ty id = some inst ↔
      ∃ ot ∈ toks, ot.code = OCode.obj_id ∧ ot.model_type = some ty ∧
        ot.model_id = some id ∧ ot.model = some inst := by
  unfold tokenize tokenizeRun at h
  by_cases h1 : pe.expression = ""
  · rw [if_pos h1] at h
    simp at h
  · rw [if_neg h1] at h
    by_cases h2 : badTokenStrings pe = []
    · rw [if_neg (by simp [h2])] at h
      rcases hloop : tokLoop pe cf (pe.pyToks.length + 1) 0 [] [] with e | ⟨toks0, rel0, loopErrs⟩
      · rw [hloop] at h
        simp at h
      · rw [hloop] at h
        simp only [] at h
        by_cases h3 : (loopErrs ++ ambigScan pe toks0) = []
        · rw [if_neg (by simp [h3])] at h
          by_cases h4 : compileOk toks0 = true
          · rw [if_pos h4] at h
            simp only [Except.ok.injEq, Prod.mk.injEq, Option.some.injEq, and_true] at h
            obtain ⟨ht, hr⟩ := h
            subst ht
            subst hr
            exact (tokLoop_inv pe cf (pe.pyToks.length + 1) 0 [] [] (relInv_nil pe)
              _ _ loopErrs hloop).2
          · rw [if_neg h4] at h
            simp at h
        · rw [if_pos (by simp [h3])] at h
          simp at h
    · rw [if_pos (by simp [h2])] at h
      simp at h


/-- Witness for C4 at the expression `p_1 + p_2` over `Parameter`
instances. -/
theorem related_objects_exact_witness :
    relLookup [("Parameter", "p_1", "inst1"), ("Parameter", "p_2", "inst2")] "Parameter" "p_1" =
        some "inst1" ↔
      ∃ ot ∈ [(⟨.obj_id, "p_1", some "Parameter", some "p_1", some "inst1"⟩ : OTok),
              ⟨.op, "+", none, none, none⟩,
              ⟨.obj_id, "p_2", some "Parameter", some "p_2", some "inst2"⟩],
        ot.code = OCode.obj_id ∧ ot.model_type = some "Parameter" ∧
          ot.model_id = some "p_1" ∧ ot.model = some "inst1" :=
  related_objects_exact
    ⟨"F", "expression", "p_1 + p_2",
      [⟨.tNAME, "p_1", 0, 3⟩, ⟨.tPLUS, "+", 4, 5⟩, ⟨.tNAME, "p_2", 6, 9⟩],
      [⟨"Parameter", [.tNAME]⟩], [("Parameter", [("p_1", "inst1"), ("p_2", "inst2")])], some []⟩
    false (fun _ => true) _ _ rfl "Parameter" "p_1" "inst1"

end ObjTables

namespace ObjTables

theorem validateNodeTypes_unary_iff (op : UOp) (x : PyAST) :
    validateNodeTypes (.unary op x) = true ↔
      (nodeTypeOK (.unary op x) = true ∧ validateNodeTypes x = true) := by
  simp only [validateNodeTypes, PyAST.anyNode, Bool.not_eq_true', Bool.or_eq_false_iff,
    Bool.not_eq_false]
  constructor
  · intro h
    exact ⟨by simpa using h.1, by simp [validateNodeTypes, Bool.not_eq_true', h.2]⟩
  · intro h
    exact ⟨by simpa using h.1, by simpa [validateNodeTypes, Bool.not_eq_true'] using h.2⟩

theorem validateNodeTypes_bin_iff (l : PyAST) (op : BOp) (r : PyAST) :
    validateNodeTypes (.bin l op r) = true ↔
      (nodeTypeOK (.bin l op r) = true ∧ validateNodeTypes l = true ∧
        validateNodeTypes r = true) := by
  simp only [validateNodeTypes, PyAST.anyNode, Bool.not_eq_true', Bool.or_eq_false_iff,
    Bool.not_eq_false]
  constructor
  · intro h
    exact ⟨by simpa using h.1.1, by simp [validateNodeTypes, Bool.not_eq_true', h.1.2],
      by simp [validateNodeTypes, Bool.not_eq_true', h.2]⟩
  · intro h
    exact ⟨⟨by simpa using h.1, by simpa [validateNodeTypes, Bool.not_eq_true'] using h.2.1⟩,
      by simpa [validateNodeTypes, Bool.not_eq_true'] using h.2.2⟩

theorem validateNodeTypes_call (f : String) (a : PyAST) :
    validateNodeTypes (.call f a) = false := by
  simp [validateNodeTypes, PyAST.anyNode, nodeTypeOK]

theorem validateNodeTypes_cmp (l r : PyAST) :
    validateNodeTypes (.cmp l r) = false := by
  simp [validateNodeTypes, PyAST.anyNode, nodeTypeOK]

theorem mulNumsNode_not_mult (l : PyAST) (op : BOp) (r : PyAST) (h : op ≠ BOp.mult) :
    mulNumsNode (.bin l op r) = .bin l op r := by
  cases op <;> first
    | exact absurd rfl h
    | (cases l <;> cases r <;> rfl)

theorem distMultNode_not_mult (l : PyAST) (op : BOp) (r : PyAST) (h : op ≠ BOp.mult) :
    distMultNode (.bin l op r) = .bin l op r := by
  cases op <;> first
    | exact absurd rfl h
    | (cases l <;> cases r <;> rfl)

theorem removeSubNode_not_sub (l : PyAST) (op : BOp) (r : PyAST) (h : op ≠ BOp.sub) :
    removeSubNode (.bin l op r) = .bin l op r := by
  cases op <;> first
    | exact absurd rfl h
    | (cases l <;> cases r <;> rfl)

end ObjTables

namespace ObjTables

theorem mulNumsNode_id_of_not_redex (t : PyAST) (h : isMulRedex t = false) : mulNumsNode t = t := by
  unfold mulNumsNode
  split
  · simp [isMulRedex] at h
  · simp [isMulRedex] at h
  · rfl

end ObjTables

namespace ObjTables

theorem isMulRedex_shapes (t : PyAST) (h : isMulRedex t = true) :
    (∃ a b, t = .bin (.num a) .mult (.num b)) ∨
    (∃ a b r2, t = .bin (.num a) .mult (.bin (.num b) .mult r2)) := by
  unfold isMulRedex at h
  split at h
  · exact Or.inl ⟨_, _, rfl⟩
  · exact Or.inr ⟨_, _, _, rfl⟩
  · cases h

theorem isMulRedex_num_left (a b : ℚ) (r2 : PyAST) :
    isMulRedex (.bin (.num a) .mult r2) = isMulRedex (.bin (.num b) .mult r2) := by
  cases r2 with
  | bin rl rop rr => cases rl <;> cases rop <;> rfl
  | _ => rfl

theorem multiplyNums_bin (l : PyAST) (op : BOp) (r : PyAST) :
    multiplyNums (.bin l op r) = mulNumsNode (.bin (multiplyNums l) op (multiplyNums r)) := rfl

theorem multiplyNums_unary (op : UOp) (x : PyAST) :
    multiplyNums (.unary op x) = .unary op (multiplyNums x) := rfl

theorem multiplyNums_call (f : String) (a : PyAST) :
    multiplyNums (.call f a) = .call f (multiplyNums a) := rfl

theorem multiplyNums_cmp (l r : PyAST) :
    multiplyNums (.cmp l r) = .cmp (multiplyNums l) (multiplyNums r) := rfl

theorem multiplyNums_id_of_noRedex (t : PyAST) (h : noMulRedex t = true) :
    multiplyNums t = t := by
  induction t with
  | num n => rfl
  | name s => rfl
  | unary op x ih =>
    rw [multiplyNums_unary, ih (by simpa [noMulRedex] using h)]
  | bin l op r ihl ihr =>
    simp only [noMulRedex, Bool.and_eq_true, Bool.not_eq_true'] at h
    rw [multiplyNums_bin, ihl h.1.2, ihr h.2, mulNumsNode_id_of_not_redex _ h.1.1]
  | call f a ih =>
    rw [multiplyNums_call, ih (by simpa [noMulRedex] using h)]
  | cmp l r ihl ihr =>
    simp only [noMulRedex, Bool.and_eq_true] at h
    rw [multiplyNums_cmp, ihl h.1, ihr h.2]

theorem multiplyNums_noRedex (t : PyAST) : noMulRedex (multiplyNums t) = true := by
  induction t with
  | num n => rfl
  | name s => rfl
  | unary op x ih => rw [multiplyNums_unary]; simpa [noMulRedex] using ih
  | bin l op r ihl ihr =>
    rw [multiplyNums_bin]
    by_cases hred : isMulRedex (.bin (multiplyNums l) op (multiplyNums r)) = true
    · rcases isMulRedex_shapes _ hred with ⟨a, b, heq⟩ | ⟨a, b, r2, heq⟩
      · rw [heq]
        rfl
      · rw [heq]
        have hr' : noMulRedex (.bin (.num b) .mult r2) = true := by
          rw [show (PyAST.bin (.num b) .mult r2) = multiplyNums r from ?_]
          · exact ihr
          · have := heq
            injection this with h1 h2 h3
            exact h3.symm
        simp only [noMulRedex, Bool.and_eq_true, Bool.not_eq_true'] at hr'
        show noMulRedex (.bin (.num (a * b)) .mult r2) = true
        simp only [noMulRedex, Bool.and_eq_true, Bool.not_eq_true']
        refine ⟨⟨?_, trivial⟩, hr'.2⟩
        rw [isMulRedex_num_left (a * b) b r2]
        exact hr'.1.1
    · rw [Bool.not_eq_true] at hred
      rw [mulNumsNode_id_of_not_redex _ hred]
      simp only [noMulRedex, Bool.and_eq_true, Bool.not_eq_true']
      exact ⟨⟨hred, ihl⟩, ihr⟩
  | call f a ih => rw [multiplyNums_call]; simpa [noMulRedex] using ih
  | cmp l r ihl ihr =>
    rw [multiplyNums_cmp]
    simp only [noMulRedex, Bool.and_eq_true]
    exact ⟨ihl, ihr⟩

theorem multiplyNums_idem (t : PyAST) :
    multiplyNums (multiplyNums t) = multiplyNums t :=
  multiplyNums_id_of_noRedex _ (multiplyNums_noRedex t)

end ObjTables

namespace ObjTables

theorem removeUnaryOps_bin (l : PyAST) (op : BOp) (r : PyAST) :
    removeUnaryOps (.bin l op r) = .bin (removeUnaryOps l) op (removeUnaryOps r) := rfl

theorem removeUnaryOps_call (f : String) (a : PyAST) :
    removeUnaryOps (.call f a) = .call f (removeUnaryOps a) := rfl

theorem removeUnaryOps_cmp (l r : PyAST) :
    removeUnaryOps (.cmp l r) = .cmp (removeUnaryOps l) (removeUnaryOps r) := rfl

theorem removeUnaryOps_uadd (x : PyAST) :
    removeUnaryOps (.unary .uadd x) = removeUnaryOps x := rfl

theorem removeUnaryOps_usub (x : PyAST) :
    removeUnaryOps (.unary .usub x) = .bin (.num (-1)) .mult (removeUnaryOps x) := rfl

theorem unaryFree_removeUnaryOps (t : PyAST) (h : validateNodeTypes t = true) :
    unaryFree (removeUnaryOps t) = true := by
  induction t with
  | num n => rfl
  | name s => rfl
  | unary op x ih =>
    obtain ⟨hok, hx⟩ := (validateNodeTypes_unary_iff op x).mp h
    simp only [nodeTypeOK, Bool.or_eq_true, decide_eq_true_eq] at hok
    rcases hok with rfl | rfl
    · rw [removeUnaryOps_uadd]; exact ih hx
    · rw [removeUnaryOps_usub]
      simp only [unaryFree, Bool.and_eq_true]
      exact ⟨trivial, ih hx⟩
  | bin l op r ihl ihr =>
    obtain ⟨_, hl, hr⟩ := (validateNodeTypes_bin_iff l op r).mp h
    rw [removeUnaryOps_bin]
    simp only [unaryFree, Bool.and_eq_true]
    exact ⟨ihl hl, ihr hr⟩
  | call f a ih => rw [validateNodeTypes_call] at h; cases h
  | cmp l r ihl ihr => rw [validateNodeTypes_cmp] at h; cases h

theorem removeUnaryOps_id_of_unaryFree (t : PyAST) (h : unaryFree t = true) :
    removeUnaryOps t = t := by
  induction t with
  | num n => rfl
  | name s => rfl
  | unary op x ih => simp [unaryFree] at h
  | bin l op r ihl ihr =>
    simp only [unaryFree, Bool.and_eq_true] at h
    rw [removeUnaryOps_bin, ihl h.1, ihr h.2]
  | call f a ih =>
    rw [removeUnaryOps_call, ih (by simpa [unaryFree] using h)]
  | cmp l r ihl ihr =>
    simp only [unaryFree, Bool.and_eq_true] at h
    rw [removeUnaryOps_cmp, ihl h.1, ihr h.2]

theorem removeUnaryOps_idem (t : PyAST) (h : validateNodeTypes t = true) :
    removeUnaryOps (removeUnaryOps t) = removeUnaryOps t :=
  removeUnaryOps_id_of_unaryFree _ (unaryFree_removeUnaryOps t h)

theorem classB_removeUnaryOps (t : PyAST) (h : validateNodeTypes t = true) :
    classB (removeUnaryOps t) = true := by
  induction t with
  | num n => rfl
  | name s => rfl
  | unary op x ih =>
    obtain ⟨hok, hx⟩ := (validateNodeTypes_unary_iff op x).mp h
    simp only [nodeTypeOK, Bool.or_eq_true, decide_eq_true_eq] at hok
    rcases hok with rfl | rfl
    · rw [removeUnaryOps_uadd]; exact ih hx
    · rw [removeUnaryOps_usub]
      simp only [classB, Bool.and_eq_true]
      exact ⟨⟨by simp, trivial⟩, ih hx⟩
  | bin l op r ihl ihr =>
    obtain ⟨hok, hl, hr⟩ := (validateNodeTypes_bin_iff l op r).mp h
    rw [removeUnaryOps_bin]
    simp only [classB, Bool.and_eq_true]
    simp only [nodeTypeOK] at hok
    exact ⟨⟨by simpa using hok, ihl hl⟩, ihr hr⟩
  | call f a ih => rw [validateNodeTypes_call] at h; cases h
  | cmp l r ihl ihr => rw [validateNodeTypes_cmp] at h; cases h

end ObjTables

namespace ObjTables

theorem classB_mulNumsNode (t : PyAST) (h : classB t = true) : classB (mulNumsNode t) = true := by
  unfold mulNumsNode
  split
  · rfl
  · simp only [classB, Bool.and_eq_true, Bool.or_eq_true, decide_eq_true_eq] at h ⊢
    tauto
  · exact h

theorem classB_distMultNode (t : PyAST) (h : classB t = true) : classB (distMultNode t) = true := by
  unfold distMultNode
  split
  · rename_i ll lop lr rl rop rr
    split
    · rename_i hlop
      simp only [Bool.or_eq_true, decide_eq_true_eq] at hlop
      simp only [classB, Bool.and_eq_true, Bool.or_eq_true, decide_eq_true_eq] at h ⊢
      tauto
    · split
      · rename_i hrop
        simp only [Bool.or_eq_true, decide_eq_true_eq] at hrop
        simp only [classB, Bool.and_eq_true, Bool.or_eq_true, decide_eq_true_eq] at h ⊢
        tauto
      · exact h
  · split
    · rename_i hc
      simp only [Bool.and_eq_true, Bool.or_eq_true, decide_eq_true_eq] at hc
      simp only [classB, Bool.and_eq_true, Bool.or_eq_true, decide_eq_true_eq] at h ⊢
      tauto
    · exact h
  · split
    · rename_i hc
      simp only [Bool.and_eq_true, Bool.or_eq_true, decide_eq_true_eq] at hc
      simp only [classB, Bool.and_eq_true, Bool.or_eq_true, decide_eq_true_eq] at h ⊢
      tauto
    · exact h
  · exact h

end ObjTables

namespace ObjTables

theorem distributeMultPass_bin (l : PyAST) (op : BOp) (r : PyAST) :
    distributeMultPass (.bin l op r) =
      distMultNode (.bin (distributeMultPass l) op (distributeMultPass r)) := rfl

theorem removeSubtraction_bin (l : PyAST) (op : BOp) (r : PyAST) :
    removeSubtraction (.bin l op r) =
      removeSubNode (.bin (removeSubtraction l) op (removeSubtraction r)) := rfl

theorem classB_multiplyNums (t : PyAST) (h : classB t = true) :
    classB (multiplyNums t) = true := by
  induction t with
  | num n => rfl
  | name s => rfl
  | unary op x ih => simp [classB] at h
  | call f a ih => simp [classB] at h
  | cmp l r ihl ihr => simp [classB] at h
  | bin l op r ihl ihr =>
    simp only [classB, Bool.and_eq_true] at h
    rw [multiplyNums_bin]
    apply classB_mulNumsNode
    simp only [classB, Bool.and_eq_true]
    exact ⟨⟨h.1.1, ihl h.1.2⟩, ihr h.2⟩

theorem classB_distributeMultPass (t : PyAST) (h : classB t = true) :
    classB (distributeMultPass t) = true := by
  induction t with
  | num n => rfl
  | name s => rfl
  | unary op x ih => simp [classB] at h
  | call f a ih => simp [classB] at h
  | cmp l r ihl ihr => simp [classB] at h
  | bin l op r ihl ihr =>
    simp only [classB, Bool.and_eq_true] at h
    rw [distributeMultPass_bin]
    apply classB_distMultNode
    simp only [classB, Bool.and_eq_true]
    exact ⟨⟨h.1.1, ihl h.1.2⟩, ihr h.2⟩

theorem iteratePass_of_fix (f : PyAST → PyAST) (t : PyAST) (h : f t = t) :
    ∀ n, iteratePass f n t = t := by
  intro n
  induction n with
  | zero => rfl
  | succ n ih =>
    simp only [iteratePass, h, if_pos]

theorem iteratePass_eq_apply (f : PyAST → PyAST) (t : PyAST) (hf : f (f t) = f t) :
    ∀ n, 1 ≤ n → iteratePass f n t = f t := by
  intro n hn
  rcases n with _ | n
  · omega
  · simp only [iteratePass]
    by_cases h : f t = t
    · rw [if_pos h, h]
    · rw [if_neg h]
      exact iteratePass_of_fix f (f t) hf n

theorem iteratePass_pres (P : PyAST → Prop) (f : PyAST → PyAST)
    (hf : ∀ t, P t → P (f t)) : ∀ n t, P t → P (iteratePass f n t) := by
  intro n
  induction n with
  | zero => intro t h; exact h
  | succ n ih =>
    intro t h
    simp only [iteratePass]
    by_cases heq : f t = t
    · rw [if_pos heq]; exact h
    · rw [if_neg heq]; exact ih (f t) (hf t h)

theorem classB_distMult (fuel : Nat) (t : PyAST) (h : classB t = true) :
    classB (distMult fuel t) = true :=
  iteratePass_pres (fun u => classB u = true) distributeMultPass
    classB_distributeMultPass fuel t h

end ObjTables

namespace ObjTables

theorem removeSubNode_num (l : PyAST) (n : ℚ) :
    removeSubNode (.bin l .sub (.num n)) = .bin l .add (.bin (.num (-1)) .mult (.num n)) := rfl

theorem removeSubNode_name (l : PyAST) (v : String) :
    removeSubNode (.bin l .sub (.name v)) = .bin l .add (.bin (.num (-1)) .mult (.name v)) := rfl

theorem removeSubNode_bin_add (l rl rr : PyAST) :
    removeSubNode (.bin l .sub (.bin rl .add rr)) =
      .bin l .add (.bin (.bin (.num (-1)) .mult rl) .add (.bin (.num (-1)) .mult rr)) := rfl

theorem removeSubNode_bin_sub (l rl rr : PyAST) :
    removeSubNode (.bin l .sub (.bin rl .sub rr)) =
      .bin l .add (.bin (.bin (.num (-1)) .mult rl) .sub (.bin (.num (-1)) .mult rr)) := rfl

theorem removeSubNode_bin_mult (l rl rr : PyAST) :
    removeSubNode (.bin l .sub (.bin rl .mult rr)) =
      .bin l .add (.bin (.bin (.num (-1)) .mult rl) .mult rr) := rfl

theorem removeSub_classB_subFree (t : PyAST) (h : classB t = true) :
    classB (removeSubtraction t) = true ∧ subFree (removeSubtraction t) = true := by
  induction t with
  | num n => exact ⟨rfl, rfl⟩
  | name s => exact ⟨rfl, rfl⟩
  | unary op x ih => simp [classB] at h
  | call f a ih => simp [classB] at h
  | cmp l r ihl ihr => simp [classB] at h
  | bin l op r ihl ihr =>
    simp only [classB, Bool.and_eq_true, Bool.or_eq_true, decide_eq_true_eq] at h
    obtain ⟨⟨hop, hl⟩, hr⟩ := h
    obtain ⟨hcl, hsl⟩ := ihl hl
    obtain ⟨hcr, hsr⟩ := ihr hr
    rw [removeSubtraction_bin]
    by_cases hsub : op = BOp.sub
    · subst hsub
      rcases hshape : removeSubtraction r with n | v | ⟨op1, x⟩ | ⟨rl, rop, rr⟩ | ⟨f, a⟩ | ⟨cl, cr⟩
      all_goals rw [hshape] at hcr hsr
      rotate_left 2
      · simp [classB] at hcr
      rotate_right 2
      rotate_left 3
      · simp [classB] at hcr
      · simp [classB] at hcr
      rotate_right 3
      · rw [removeSubNode_num]
        exact ⟨by simp [classB, hcl], by simp [subFree, hsl]⟩
      · rw [removeSubNode_name]
        exact ⟨by simp [classB, hcl], by simp [subFree, hsl]⟩
      · have hropsub : rop ≠ BOp.sub := by
          intro hx
          subst hx
          simp [subFree] at hsr
        have hparts : ((rop = BOp.add ∨ rop = BOp.sub) ∨ rop = BOp.mult) ∧
            classB rl = true ∧ classB rr = true := by
          simp only [classB, Bool.and_eq_true, Bool.or_eq_true, decide_eq_true_eq] at hcr
          exact ⟨hcr.1.1, hcr.1.2, hcr.2⟩
        have hsparts : subFree rl = true ∧ subFree rr = true := by
          simp only [subFree, Bool.and_eq_true] at hsr
          exact ⟨hsr.1.2, hsr.2⟩
        have hrop : rop = BOp.add ∨ rop = BOp.mult := by
          rcases hparts.1 with (hx | hx) | hx
          · exact Or.inl hx
          · exact absurd hx hropsub
          · exact Or.inr hx
        rcases hrop with rfl | rfl
        · rw [removeSubNode_bin_add]
          exact ⟨by simp [classB, hcl, hparts.2.1, hparts.2.2],
            by simp [subFree, hsl, hsparts.1, hsparts.2]⟩
        · rw [removeSubNode_bin_mult]
          exact ⟨by simp [classB, hcl, hparts.2.1, hparts.2.2],
            by simp [subFree, hsl, hsparts.1, hsparts.2]⟩
    · rw [removeSubNode_not_sub _ _ _ hsub]
      refine ⟨?_, ?_⟩
      · simp only [classB, Bool.and_eq_true, Bool.or_eq_true, decide_eq_true_eq]
        tauto
      · simp only [subFree, Bool.and_eq_true, Bool.not_eq_true']
        refine ⟨⟨?_, hsl⟩, hsr⟩
        simp [hsub]

end ObjTables

namespace ObjTables

theorem removeSubtraction_unary (op : UOp) (x : PyAST) :
    removeSubtraction (.unary op x) = .unary op (removeSubtraction x) := rfl

theorem removeSubtraction_call (f : String) (a : PyAST) :
    removeSubtraction (.call f a) = .call f (removeSubtraction a) := rfl

theorem removeSubtraction_cmp (l r : PyAST) :
    removeSubtraction (.cmp l r) = .cmp (removeSubtraction l) (removeSubtraction r) := rfl

theorem removeSubtraction_id_of_subFree (t : PyAST) (h : subFree t = true) :
    removeSubtraction t = t := by
  induction t with
  | num n => rfl
  | name s => rfl
  | unary op x ih =>
    simp only [subFree] at h
    rw [removeSubtraction_unary, ih h]
  | call f a ih =>
    simp only [subFree] at h
    rw [removeSubtraction_call, ih h]
  | cmp l r ihl ihr =>
    simp only [subFree, Bool.and_eq_true] at h
    rw [removeSubtraction_cmp, ihl h.1, ihr h.2]
  | bin l op r ihl ihr =>
    simp only [subFree, Bool.and_eq_true, Bool.not_eq_true'] at h
    have hop : op ≠ BOp.sub := of_decide_eq_false h.1.1
    rw [removeSubtraction_bin, ihl h.1.2, ihr h.2, removeSubNode_not_sub _ _ _ hop]

theorem removeSubtraction_idem_of_classB (t : PyAST) (h : classB t = true) :
    removeSubtraction (removeSubtraction t) = removeSubtraction t :=
  removeSubtraction_id_of_subFree _ (removeSub_classB_subFree t h).2

/-- C8: the `_validate` normalization runs exactly the passes remove-unary,
multiply-numbers, distribute-mult, multiply-numbers, remove-subtraction,
multiply-numbers in that order, with the distribute-mult pass iterated to a
structural-equality fixpoint (`_dist_mult`).  The spec says every pass is
iterated to a fixpoint; on every tree that passes `_validate_node_types`
the two descriptions agree, because each single-run pass is already
idempotent there: iterating any of them (any positive fuel) gives the same
tree as running it once, so the fully-iterated pipeline equals the code's
pipeline. -/
theorem normalization_pass_order_fixpoint
    (f1 f2 fd f4 f5 f6 : Nat) (t : PyAST)
    (hv : validateNodeTypes t = true)
    (h1 : 1 ≤ f1) (h2 : 1 ≤ f2) (h4 : 1 ≤ f4) (h5 : 1 ≤ f5) (h6 : 1 ≤ f6) :
    specNormalize f1 f2 fd f4 f5 f6 t = codeNormalize fd t := by
  have e1 : iteratePass (bottomUp removeUnaryNode) f1 t = removeUnaryOps t :=
    iteratePass_eq_apply _ t (removeUnaryOps_idem t hv) f1 h1
  have e2 : iteratePass (bottomUp mulNumsNode) f2 (removeUnaryOps t)
      = multiplyNums (removeUnaryOps t) :=
    iteratePass_eq_apply _ _ (multiplyNums_idem _) f2 h2
  have hB3 : classB (multiplyNums (distMult fd (multiplyNums (removeUnaryOps t)))) = true :=
    classB_multiplyNums _ (classB_distMult fd _
      (classB_multiplyNums _ (classB_removeUnaryOps t hv)))
  have e4 : iteratePass (bottomUp mulNumsNode) f4 (distMult fd (multiplyNums (removeUnaryOps t)))
      = multiplyNums (distMult fd (multiplyNums (removeUnaryOps t))) :=
    iteratePass_eq_apply _ _ (multiplyNums_idem _) f4 h4
  have e5 : iteratePass (bottomUp removeSubNode) f5
        (multiplyNums (distMult fd (multiplyNums (removeUnaryOps t))))
      = removeSubtraction (multiplyNums (distMult fd (multiplyNums (removeUnaryOps t)))) :=
    iteratePass_eq_apply _ _ (removeSubtraction_idem_of_classB _ hB3) f5 h5
  unfold specNormalize codeNormalize
  rw [e1, e2]
  rw [show iteratePass (bottomUp distMultNode) fd (multiplyNums (removeUnaryOps t))
      = distMult fd (multiplyNums (removeUnaryOps t)) from rfl]
  rw [e4, e5]
  exact iteratePass_eq_apply _ _ (multiplyNums_idem _) f6 h6

theorem normalization_pass_order_fixpoint_witness :
    validateNodeTypes (PyAST.bin (.bin (.num 2) .mult (.name "x")) .sub (.num 3)) = true ∧
    specNormalize 1 1 2 1 1 1 (PyAST.bin (.bin (.num 2) .mult (.name "x")) .sub (.num 3))
      = codeNormalize 2 (PyAST.bin (.bin (.num 2) .mult (.name "x")) .sub (.num 3)) :=
  ⟨by decide, normalization_pass_order_fixpoint 1 1 2 1 1 1 _ (by decide)
    (by decide) (by decide) (by decide) (by decide) (by decide)⟩

end ObjTables

namespace ObjTables

theorem isMulRedex_not_mult (l : PyAST) (op : BOp) (r : PyAST) (h : op ≠ BOp.mult) :
    isMulRedex (.bin l op r) = false := by
  cases op <;> first
    | exact absurd rfl h
    | (cases l <;> cases r <;> rfl)

theorem linTerm_removeSub (t : LinTerm) : removeSubtraction t.toAST = t.toAST := by
  cases t with
  | mk c v => cases c <;> rfl

theorem linTerm_multiplyNums (t : LinTerm) : multiplyNums t.toAST = t.toAST := by
  cases t with
  | mk c v => cases c <;> rfl

theorem linTerm_distPass (t : LinTerm) : distributeMultPass t.toAST = t.toAST := by
  cases t with
  | mk c v => cases c <;> rfl

theorem linTerm_noRedex (t : LinTerm) : noMulRedex t.toAST = true := by
  cases t with
  | mk c v => cases c <;> rfl

theorem linTerm_unaryFree (t : LinTerm) : unaryFree t.toAST = true := by
  cases t with
  | mk c v => cases c <;> rfl

theorem linTerm_validateNodeTypes (t : LinTerm) : validateNodeTypes t.toAST = true := by
  cases t with
  | mk c v => cases c <;> rfl

theorem linComb_unaryFree (lc : LinComb) : unaryFree lc.toAST = true := by
  induction lc with
  | single t => exact linTerm_unaryFree t
  | app rest s t ih =>
    simp only [LinComb.toAST, unaryFree, Bool.and_eq_true]
    exact ⟨ih, linTerm_unaryFree t⟩

theorem linComb_noRedex (lc : LinComb) : noMulRedex lc.toAST = true := by
  induction lc with
  | single t => exact linTerm_noRedex t
  | app rest s t ih =>
    simp only [LinComb.toAST, noMulRedex, Bool.and_eq_true, Bool.not_eq_true']
    refine ⟨⟨?_, ih⟩, linTerm_noRedex t⟩
    cases s
    · exact isMulRedex_not_mult _ _ _ (by decide)
    · exact isMulRedex_not_mult _ _ _ (by decide)

theorem linComb_validateNodeTypes (lc : LinComb) : validateNodeTypes lc.toAST = true := by
  induction lc with
  | single t => exact linTerm_validateNodeTypes t
  | app rest s t ih =>
    refine (validateNodeTypes_bin_iff _ _ _).mpr ⟨?_, ih, linTerm_validateNodeTypes t⟩
    cases s <;> rfl

theorem linComb_distPass (lc : LinComb) : distributeMultPass lc.toAST = lc.toAST := by
  induction lc with
  | single t => exact linTerm_distPass t
  | app rest s t ih =>
    show distributeMultPass (.bin rest.toAST _ t.toAST) = _
    rw [distributeMultPass_bin, ih, linTerm_distPass]
    cases s
    · exact distMultNode_not_mult _ _ _ (by decide)
    · exact distMultNode_not_mult _ _ _ (by decide)

end ObjTables

namespace ObjTables

theorem linComb_toAST_app_false (rest : LinComb) (t : LinTerm) :
    (LinComb.app rest false t).toAST = .bin rest.toAST .add t.toAST := rfl

theorem linComb_toAST_app_true (rest : LinComb) (t : LinTerm) :
    (LinComb.app rest true t).toAST = .bin rest.toAST .sub t.toAST := rfl

theorem linComb_norm (lc : LinComb) :
    multiplyNums (removeSubtraction lc.toAST) = lc.normTree.toAST := by
  induction lc with
  | single t =>
    cases t with
    | mk c v => cases c <;> rfl
  | app rest s t ih =>
    cases s
    · rw [linComb_toAST_app_false, removeSubtraction_bin, linTerm_removeSub,
        removeSubNode_not_sub _ _ _ (by decide), multiplyNums_bin, ih, linTerm_multiplyNums,
        mulNumsNode_not_mult _ _ _ (by decide)]
      cases t with
      | mk c v => cases c <;> rfl
    · rw [linComb_toAST_app_true, removeSubtraction_bin, linTerm_removeSub]
      cases t with
      | mk c v =>
        cases c with
        | none =>
          rw [show LinTerm.toAST ⟨none, v⟩ = .name v from rfl, removeSubNode_name,
            multiplyNums_bin, ih,
            show multiplyNums (.bin (.num (-1)) .mult (.name v))
              = .bin (.num (-1)) .mult (.name v) from rfl,
            mulNumsNode_not_mult _ _ _ (by decide)]
          rfl
        | some c =>
          rw [show LinTerm.toAST ⟨some c, v⟩ = .bin (.num c) .mult (.name v) from rfl,
            removeSubNode_bin_mult, multiplyNums_bin, ih,
            show multiplyNums (.bin (.bin (.num (-1)) .mult (.num c)) .mult (.name v))
              = .bin (.num (-1 * c)) .mult (.name v) from rfl,
            mulNumsNode_not_mult _ _ _ (by decide), neg_one_mul]
          rfl

theorem linComb_codeNormalize (fuel : Nat) (lc : LinComb) :
    codeNormalize fuel lc.toAST = lc.normTree.toAST := by
  unfold codeNormalize
  rw [removeUnaryOps_id_of_unaryFree _ (linComb_unaryFree lc),
    multiplyNums_id_of_noRedex _ (linComb_noRedex lc),
    show distMult fuel lc.toAST = lc.toAST from iteratePass_of_fix _ _ (linComb_distPass lc) fuel,
    multiplyNums_id_of_noRedex _ (linComb_noRedex lc),
    linComb_norm lc]

end ObjTables

namespace ObjTables

theorem gtree_shape (g : GTree) :
    (∃ v, g.toAST = .name v) ∨ (∃ a op b, g.toAST = .bin a op b) := by
  cases g with
  | gname v => exact Or.inl ⟨v, rfl⟩
  | coeffTerm c v => exact Or.inr ⟨_, _, _, rfl⟩
  | addNode l r => exact Or.inr ⟨_, _, _, rfl⟩

theorem gtree_no_constant (g : GTree) : exprHasAConstant g.toAST = false := by
  induction g with
  | gname v => rfl
  | coeffTerm c v => rfl
  | addNode l r ihl ihr =>
    simp only [exprHasAConstant, Bool.or_eq_false_iff] at ihl ihr ⊢
    refine ⟨rfl, ?_⟩
    simp only [GTree.toAST, PyAST.anyNode, Bool.or_eq_false_iff]
    refine ⟨⟨?_, ihl.2⟩, ihr.2⟩
    rcases gtree_shape l with ⟨v1, hl⟩ | ⟨a1, b1, c1, hl⟩ <;>
      rcases gtree_shape r with ⟨v2, hr⟩ | ⟨a2, b2, c2, hr⟩ <;>
      rw [hl, hr] <;> rfl

theorem numVarsInProduct_add (a b : PyAST) : numVarsInProduct (.bin a .add b) = 0 := by
  cases a <;> cases b <;> rfl

theorem gtree_no_products (g : GTree) : exprHasProductsOfVariables g.toAST = false := by
  induction g with
  | gname v => rfl
  | coeffTerm c v => rfl
  | addNode l r ihl ihr =>
    simp only [exprHasProductsOfVariables] at ihl ihr ⊢
    simp only [GTree.toAST, PyAST.anyNode, Bool.or_eq_false_iff]
    refine ⟨⟨?_, ihl⟩, ihr⟩
    rw [numVarsInProduct_add]
    rfl

theorem gtree_no_const_right (g : GTree) : exprHasConstantRightOfVars g.toAST = false := by
  induction g with
  | gname v => rfl
  | coeffTerm c v => rfl
  | addNode l r ihl ihr =>
    simp only [exprHasConstantRightOfVars] at ihl ihr ⊢
    simp only [GTree.toAST, PyAST.anyNode, Bool.or_eq_false_iff]
    exact ⟨⟨trivial, ihl⟩, ihr⟩

end ObjTables

namespace ObjTables

theorem flatSegs_append (s1 s2 : List Seg) :
    flatSegs (s1 ++ s2) = flatSegs s1 ++ flatSegs s2 := by
  induction s1 with
  | nil => rfl
  | cons a s ih => cases a <;> simp [flatSegs, ih]

theorem segsSum_append (id : String) (s1 s2 : List Seg) :
    segsSum id (s1 ++ s2) = segsSum id s1 + segsSum id s2 := by
  induction s1 with
  | nil => simp [segsSum]
  | cons a s ih => cases a <;> simp [segsSum, ih] <;> ring

theorem segsNodes_append (s1 s2 : List Seg) :
    segsNodes (s1 ++ s2) = segsNodes s1 + segsNodes s2 := by
  induction s1 with
  | nil => simp [segsNodes]
  | cons a s ih => cases a <;> simp [segsNodes, ih] <;> omega

theorem walk_coeff_sum (id : String) (fuel : Nat) :
    ∀ segs : List Seg, segsNodes segs ≤ fuel →
      pairSum id (coeffScan (walkAux fuel (flatSegs segs)) 1) = segsSum id segs := by
  induction fuel using Nat.strong_induction_on with
  | _ fuel ih =>
    intro segs hle
    cases segs with
    | nil => cases fuel <;> rfl
    | cons sg s =>
      cases sg with
      | tr g =>
        cases g with
        | gname v =>
          rcases fuel with _ | f
          · exfalso
            simp only [segsNodes, GTree.toAST, PyAST.nodeCount] at hle
            omega
          · have hrec := ih f (Nat.lt_succ_self f) s (by
              simp only [segsNodes, GTree.toAST, PyAST.nodeCount] at hle
              omega)
            simp only [flatSegs, GTree.toAST, walkAux, PyAST.children, List.append_eq, List.append_nil,
              coeffScan, pairSum, segsSum, GTree.idSum]
            rw [hrec]
        | coeffTerm c v =>
          rcases fuel with _ | f
          · exfalso
            simp only [segsNodes, GTree.toAST, PyAST.nodeCount] at hle
            omega
          · have hn : segsNodes (s ++ [Seg.pairBlock c v]) ≤ f := by
              rw [segsNodes_append]
              simp only [segsNodes, GTree.toAST, PyAST.nodeCount] at hle ⊢
              omega
            have hrec := ih f (Nat.lt_succ_self f) (s ++ [Seg.pairBlock c v]) hn
            rw [flatSegs_append] at hrec
            simp only [flatSegs] at hrec
            simp only [flatSegs, GTree.toAST, walkAux, PyAST.children, coeffScan]
            rw [hrec, segsSum_append]
            simp only [segsSum, GTree.idSum]
            ring
        | addNode lg rg =>
          rcases fuel with _ | f
          · exfalso
            simp only [segsNodes, GTree.toAST, PyAST.nodeCount] at hle
            omega
          · have hn : segsNodes (s ++ [Seg.tr lg, Seg.tr rg]) ≤ f := by
              rw [segsNodes_append]
              simp only [segsNodes, GTree.toAST, PyAST.nodeCount] at hle ⊢
              omega
            have hrec := ih f (Nat.lt_succ_self f) (s ++ [Seg.tr lg, Seg.tr rg]) hn
            rw [flatSegs_append] at hrec
            simp only [flatSegs] at hrec
            simp only [flatSegs, GTree.toAST, walkAux, PyAST.children, coeffScan]
            rw [hrec, segsSum_append]
            simp only [segsSum, GTree.idSum]
            ring
      | pairBlock c v =>
        rcases fuel with _ | f
        · exfalso
          simp only [segsNodes] at hle
          omega
        · rcases f with _ | f2
          · exfalso
            simp only [segsNodes] at hle
            omega
          · have hrec := ih f2 (by omega) s (by
              simp only [segsNodes] at hle
              omega)
            simp only [flatSegs, walkAux, PyAST.children, List.append_eq, List.append_nil, coeffScan,
              pairSum, segsSum]
            rw [hrec]

end ObjTables

namespace ObjTables

theorem filter_foldl_pairSum (id : String) (l : List (ℚ × String)) :
    ∀ a : ℚ, ((l.filter fun p => p.2 = id).foldl (fun s q => s + q.1) a) = a + pairSum id l := by
  induction l with
  | nil => intro a; simp [pairSum]
  | cons p rest ih =>
    intro a
    by_cases hp : p.2 = id
    · rw [List.filter_cons_of_pos (by simpa using hp), List.foldl_cons, ih]
      simp only [pairSum, if_pos hp]
      ring
    · rw [List.filter_cons_of_neg (by simpa using hp), ih]
      simp only [pairSum, if_neg hp]
      ring

theorem linCoeffOf_gtree (g : GTree) (id : String) :
    linCoeffOf g.toAST id = g.idSum id := by
  have h := walk_coeff_sum id g.toAST.nodeCount [Seg.tr g]
    (by simp [segsNodes])
  simp only [flatSegs, segsSum] at h
  unfold linCoeffOf getCoeffsForVars walk
  rw [filter_foldl_pairSum, zero_add, h, add_zero]

theorem normTree_coeffSum (lc : LinComb) (id : String) :
    lc.normTree.idSum id = lc.coeffSum id := by
  induction lc with
  | single t =>
    cases t with
    | mk c v =>
      cases c with
      | none =>
        simp [LinComb.normTree, LinTerm.normTerm, GTree.idSum, LinComb.coeffSum,
          LinTerm.signedVal]
      | some c =>
        simp [LinComb.normTree, LinTerm.normTerm, GTree.idSum, LinComb.coeffSum,
          LinTerm.signedVal]
  | app rest s t ih =>
    cases t with
    | mk c v =>
      cases s <;> cases c <;>
        simp [LinComb.normTree, LinTerm.normTerm, GTree.idSum, LinComb.coeffSum,
          LinTerm.signedVal, ih] <;>
        split_ifs <;> ring

theorem lpevValidate_linComb (f : Nat) (lc : LinComb) :
    lpevValidate f lc.toAST = ⟨true, none, lc.normTree.toAST⟩ := by
  simp only [lpevValidate, linComb_validateNodeTypes, validateNums, Bool.not_true,
    linComb_codeNormalize, gtree_no_constant, gtree_no_products, gtree_no_const_right,
    Bool.false_eq_true, if_false]

end ObjTables

namespace ObjTables

/-- C1: on every expression that is a signed chain of terms `c * v` or `v`
built from numeric literals, `+`, `-`, `*`, and identifiers — the trees
`LinComb.toAST` — `LinearParsedExpressionValidator._validate` reports
`is_linear = true`, and the coefficient `_set_lin_coeffs` records for each
identifier from the normalized tree equals the signed sum of the
coefficients of that identifier's occurrences (a bare identifier counting
1); in particular for `2 * p_1 - 3 * p_1` the coefficient of `p_1` is
`-1`. -/
theorem linear_combination_coeffs (lc : LinComb) (fuel : Nat) (id : String) :
    (lpevValidate fuel lc.toAST).is_linear = true ∧
    linCoeffOf (lpevValidate fuel lc.toAST).tree id = lc.coeffSum id ∧
    (lpevValidate 1 (LinComb.app (.single ⟨some 2, "p_1"⟩) true ⟨some 3, "p_1"⟩).toAST).is_linear
      = true ∧
    linCoeffOf
      (lpevValidate 1 (LinComb.app (.single ⟨some 2, "p_1"⟩) true ⟨some 3, "p_1"⟩).toAST).tree
      "p_1" = -1 := by
  refine ⟨?_, ?_, ?_, ?_⟩
  · rw [lpevValidate_linComb]
  · rw [lpevValidate_linComb]
    show linCoeffOf lc.normTree.toAST id = lc.coeffSum id
    rw [linCoeffOf_gtree, normTree_coeffSum]
  · rw [lpevValidate_linComb]
  · rw [lpevValidate_linComb]
    show linCoeffOf (LinComb.app (.single ⟨some 2, "p_1"⟩) true ⟨some 3, "p_1"⟩).normTree.toAST
      "p_1" = -1
    rw [linCoeffOf_gtree, normTree_coeffSum]
    norm_num [LinComb.coeffSum, LinTerm.signedVal]

end ObjTables
